import Mathlib

/-!
Verification of the orchestration engine of the Enterprise-Data-Analyst-Agent
repository, as a shallow embedding in Lean 4.

The embedding follows the Python sources:

* `src/core/state.py`       — `AgentState`, `create_initial_state`, `merge_partial_state`
* `src/workflow/team.py`    — `_supervisor_node`, `_analyst_node`, `_strategist_node`,
                              the per-step merge/window/event logic of `run_stream`
* `src/agents/supervisor.py`— `SupervisorAgent.decide`
* `src/tools/security.py`   — `is_code_safe`
* `src/tools/analysis_tools.py` — the "ANALYSIS: <summary> | DATA: <json>" envelope
* `src/config/settings.py`  — constants

External collaborators (the LLM backend, the worker agents' model calls, and
CPython's `ast.parse`) are modelled as explicit parameters: an `Except` value
for calls that can raise, and an abstract parse-result for `ast.parse`.
Python strings are modelled as `String` / `List Char`; the Python string
operations used by the sources (`in`, `split`, `strip`, `lower`, `replace`,
`" ".join`) are defined below with Python's semantics (for non-empty
separators, which is the only way the sources use them).

All definitions are structural (no well-founded recursion), so every concrete
instance evaluates by `decide` / `rfl` in the kernel.
-/

/-! ### Python string primitives -/

/-- Python's whitespace class `\s` over ASCII: space, tab, newline, carriage
return, vertical tab (11), form feed (12). -/
def isWsChar (c : Char) : Bool :=
  c == ' ' || c == '\t' || c == '\n' || c == '\r' || c.toNat == 11 || c.toNat == 12

/-- Occurrence of `pat` as a contiguous substring, on character lists.
Matches Python's `pat in s` (for any `pat`, including the empty one). -/
def strOccursL (pat : List Char) : List Char → Bool
  | [] => pat.isEmpty
  | c :: cs => pat.isPrefixOf (c :: cs) || strOccursL pat cs

/-- Python's `pat in s` on `String`. -/
def pyIn (pat s : String) : Bool := strOccursL pat.data s.data

/-- Fuel-driven splitter: splits on non-overlapping occurrences of `sep`,
left to right, Python `str.split(sep)` for a non-empty `sep`.  The fuel is
instantiated with the input length, which always suffices. -/
def pySplitFuel (sep : List Char) : Nat → List Char → List (List Char)
  | _, [] => [[]]
  | 0, s => [s]
  | fuel + 1, c :: cs =>
    if sep.isPrefixOf (c :: cs) then
      [] :: pySplitFuel sep fuel ((c :: cs).drop sep.length)
    else
      match pySplitFuel sep fuel cs with
      | [] => [[c]]
      | p :: rest => (c :: p) :: rest

/-- Python `s.split(sep)` for a non-empty separator (the sources only split on
`"Routing to"` and `"."`).  An empty separator raises in Python and is never
used; we return `[s]` in that case to stay total. -/
def pySplit (s sep : String) : List String :=
  match sep.data with
  | [] => [s]
  | s0 :: srest => (pySplitFuel (s0 :: srest) s.data.length s.data).map (fun cs => String.mk cs)

/-- Python `s.strip()` (ASCII whitespace). -/
def pyStrip (s : String) : String :=
  String.mk (((s.data.dropWhile isWsChar).reverse.dropWhile isWsChar).reverse)

/-- Python `s.lower()` (ASCII case folding suffices for the agent names the
source lowercases). -/
def pyLower (s : String) : String := String.mk (s.data.map Char.toLower)

/-- Python `s.replace(old, new)` for a non-empty `old`: split on `old`, join
with `new`. -/
def pyReplace (s old new : String) : String :=
  String.intercalate new (pySplit s old)

/-- Python `" ".join(parts)`. -/
def joinSpace : List String → String
  | [] => ""
  | [s] => s
  | s :: rest => s ++ " " ++ joinSpace rest

/-- Python `l[-n:]`: the trailing `n` elements (all of `l` when `n ≥ |l|`). -/
def takeLast (n : Nat) (l : List α) : List α := l.drop (l.length - n)

/-! ### Structured analysis payloads (the `DATA:` JSON objects)

Every `structured_data` value built by `execute_python_analysis` in
`src/tools/analysis_tools.py` is a flat JSON object: each field is a scalar
(string, number, or null) or a list of scalars.  `JPayload` is exactly that
grammar.  Numbers carry their decimal digits (integer part and fractional
part) directly, which is how `json.dumps` prints the tool's `int`/rounded
`float` values; `frac = []` is an integer literal. -/

/-- A scalar JSON value as emitted by the analysis tool. -/
inductive JScalar where
  | snull : JScalar
  | snum (neg : Bool) (ip : List (Fin 10)) (frac : List (Fin 10)) : JScalar
  | sstr (s : String) : JScalar
deriving DecidableEq, Repr

/-- A field value: a scalar or a flat list of scalars. -/
inductive JVal where
  | prim (v : JScalar) : JVal
  | arr (elems : List JScalar) : JVal
deriving DecidableEq, Repr

/-- A flat JSON object, ordered fields (Python dicts preserve insertion
order, and `json.dumps` prints fields in that order). -/
structure JPayload where
  fields : List (String × JVal)
deriving DecidableEq, Repr

/-! ### Configuration constants (`src/config/settings.py`) -/

/-- `MAX_ITERATIONS_DEFAULT` in `settings.py`. -/
def MAX_ITERATIONS_DEFAULT : Nat := 10

/-- `MESSAGE_WINDOW` in `settings.py`. -/
def MESSAGE_WINDOW : Nat := 8

/-- `VALID_AGENTS` in `settings.py` (a Python set; modelled as a list with
membership given by `List.contains`). -/
def VALID_AGENTS : List String := ["Data_Analyst", "Business_Strategist", "FINISH"]

/-- `FORBIDDEN_MODULES` in `settings.py`. -/
def FORBIDDEN_MODULES : List String :=
  ["os", "sys", "subprocess", "shutil", "socket", "eval", "exec", "compile", "open"]

/-! ### Messages and workflow state (`src/core/state.py`) -/

/-- The role of a conversation message (`HumanMessage`, `AIMessage`,
`ToolMessage` in langchain). -/
inductive Role where
  | human : Role
  | ai : Role
  | tool : Role
deriving DecidableEq, Repr

/-- A conversation message.  All langchain `BaseMessage`s carry a `content`
string, the only attribute the engine reads. -/
structure Message where
  role : Role
  content : String
deriving DecidableEq, Repr

/-- `AgentState` (`src/core/state.py`): the full workflow state. -/
structure AgentState where
  messages : List Message
  next_agent : Option String
  iteration_count : Nat
  last_error : Option String
  reasoning : Option String
  raw_data : Option JPayload
deriving DecidableEq, Repr

/-- A node's partial state update: a Python dict that may or may not carry
each key.  `none` = key absent; `some v` = key present with value `v` (which
for the optional-valued keys may itself be Python `None`, i.e. `some none`). -/
structure PartialState where
  messages : Option (List Message)
  iteration_count : Option Nat
  next_agent : Option (Option String)
  last_error : Option (Option String)
  reasoning : Option (Option String)
  raw_data : Option (Option JPayload)
deriving DecidableEq, Repr

/-- `create_initial_state(query)` in `src/core/state.py`. -/
def create_initial_state (query : String) : AgentState :=
  { messages := [{ role := Role.human, content := query }]
    next_agent := none
    iteration_count := 0
    last_error := none
    reasoning := none
    raw_data := none }

/-- `merge_partial_state(state, partial)` in `src/core/state.py`: copies the
state and applies exactly the keys `messages`, `iteration_count`,
`next_agent`, `last_error`, `reasoning` when present.  There is no branch for
`raw_data`, so it is always carried over from `state`. -/
def merge_partial_state (state : AgentState) (p : PartialState) : AgentState :=
  { messages := match p.messages with
      | some m => m
      | none => state.messages
    iteration_count := match p.iteration_count with
      | some n => n
      | none => state.iteration_count
    next_agent := match p.next_agent with
      | some a => a
      | none => state.next_agent
    last_error := match p.last_error with
      | some e => e
      | none => state.last_error
    reasoning := match p.reasoning with
      | some r => r
      | none => state.reasoning
    raw_data := state.raw_data }

/-! ### The `"<summary> | DATA: <json>"` envelope (`src/tools/analysis_tools.py`)
and its downstream parser (`_analyst_node` in `src/workflow/team.py`).

`execute_python_analysis` returns `f"{summary} | DATA: {json.dumps(structured_data)}"`.
`_analyst_node` recovers the payload with
`re.search(r'DATA:\s*(\{.*?\})', content, re.DOTALL)` followed by
`json.loads` on group 1.  `jsonDumps` models `json.dumps` (default
separators `", "` and `": "`) on the payload grammar; `jsonLoads` models
`json.loads` on object documents (the regex group always starts with a
brace); `reSearchData` models the regex search (leftmost match; `\s*` is
maximal-munch here, which is equivalent because a run of `\s` can only be
followed by a non-`{` whitespace character if shortened; `.*?` under DOTALL
stops at the first closing brace). -/

/-- The decimal digit character of `d` (ASCII 48 is `0`). -/
def digitChar (d : Fin 10) : Char := Char.ofNat (48 + d.val)

/-- The digit value of a character, if it is a decimal digit. -/
def charDigit (c : Char) : Option (Fin 10) :=
  if h : 48 ≤ c.toNat ∧ c.toNat < 58 then some ⟨c.toNat - 48, by omega⟩ else none

/-- `json.dumps` of a scalar. -/
def dumpScalar : JScalar → List Char
  | .snull => ['n', 'u', 'l', 'l']
  | .snum neg ip frac =>
    (if neg then ['-'] else []) ++ ip.map digitChar ++
      (if frac.isEmpty then [] else '.' :: frac.map digitChar)
  | .sstr s => '"' :: s.data ++ ['"']

/-- `json.dumps` of a list body, `", "`-separated. -/
def dumpElems : List JScalar → List Char
  | [] => []
  | [v] => dumpScalar v
  | v :: vs => dumpScalar v ++ ',' :: ' ' :: dumpElems vs

/-- `json.dumps` of a field value. -/
def dumpVal : JVal → List Char
  | .prim v => dumpScalar v
  | .arr es => '[' :: dumpElems es ++ [']']

/-- `json.dumps` of one `"key": value` member. -/
def dumpField (k : String) (v : JVal) : List Char :=
  '"' :: k.data ++ '"' :: ':' :: ' ' :: dumpVal v

/-- `json.dumps` of an object body, `", "`-separated. -/
def dumpFields : List (String × JVal) → List Char
  | [] => []
  | [(k, v)] => dumpField k v
  | (k, v) :: rest => dumpField k v ++ ',' :: ' ' :: dumpFields rest

/-- `json.dumps(payload)` as a character list. -/
def jsonDumps (p : JPayload) : List Char := '{' :: dumpFields p.fields ++ ['}']

/-- Whitespace skipping, as `json.loads` does between tokens. -/
def jsonSkipWs (cs : List Char) : List Char := cs.dropWhile isWsChar

/-- The maximal leading run of decimal digits. -/
def spanDigits : List Char → List (Fin 10) × List Char
  | [] => ([], [])
  | c :: cs =>
    match charDigit c with
    | some d => match spanDigits cs with
      | (ds, r) => (d :: ds, r)
    | none => ([], c :: cs)

/-- The body of a string literal: characters up to the closing quote. -/
def takeStrBody : List Char → Option (List Char × List Char)
  | [] => none
  | c :: cs =>
    if c == '"' then some ([], cs)
    else (takeStrBody cs).map (fun pr => (c :: pr.1, pr.2))

/-- A number after the optional sign: digits, then an optional fraction. -/
def parseNumTail (neg : Bool) (cs : List Char) : Option (JScalar × List Char) :=
  match spanDigits cs with
  | ([], _) => none
  | (d :: ds, r) =>
    match r with
    | [] => some (JScalar.snum neg (d :: ds) [], [])
    | c :: r2 =>
      if c == '.' then
        match spanDigits r2 with
        | ([], _) => none
        | (f :: fs, r3) => some (JScalar.snum neg (d :: ds) (f :: fs), r3)
      else some (JScalar.snum neg (d :: ds) [], c :: r2)

/-- One scalar token. -/
def parseScalar : List Char → Option (JScalar × List Char)
  | [] => none
  | c :: cs =>
    if c == '"' then (takeStrBody cs).map (fun pr => (JScalar.sstr (String.mk pr.1), pr.2))
    else if c == 'n' then
      match cs with
      | 'u' :: 'l' :: 'l' :: r => some (JScalar.snull, r)
      | _ => none
    else if c == '-' then parseNumTail true cs
    else parseNumTail false (c :: cs)

/-- The elements of a non-empty array, consuming the closing bracket.  The
fuel is instantiated with the input length, which always suffices because
each element consumes at least one character. -/
def parseElemsFuel : Nat → List Char → Option (List JScalar × List Char)
  | 0, _ => none
  | fuel + 1, cs =>
    match parseScalar cs with
    | none => none
    | some (v, r) =>
      match jsonSkipWs r with
      | [] => none
      | c :: r2 =>
        if c == ',' then
          match parseElemsFuel fuel (jsonSkipWs r2) with
          | none => none
          | some (vs, r3) => some (v :: vs, r3)
        else if c == ']' then some ([v], r2)
        else none

/-- The inside of an array literal, after the opening bracket and
whitespace: an immediate closing bracket is the empty array, anything else
is a non-empty element list. -/
def parseArrBody : List Char → Option (JVal × List Char)
  | [] => none
  | c :: cs =>
    if c == ']' then some (JVal.arr [], cs)
    else (parseElemsFuel (cs.length + 2) (c :: cs)).map (fun pr => (JVal.arr pr.1, pr.2))

/-- One field value: an array or a scalar. -/
def parseVal : List Char → Option (JVal × List Char)
  | [] => none
  | c :: cs =>
    if c == '[' then parseArrBody (jsonSkipWs cs)
    else (parseScalar (c :: cs)).map (fun pr => (JVal.prim pr.1, pr.2))

/-- The members of a non-empty object, consuming the closing brace. -/
def parseFieldsFuel : Nat → List Char → Option (List (String × JVal) × List Char)
  | 0, _ => none
  | fuel + 1, cs =>
    match cs with
    | [] => none
    | c :: cs1 =>
      if c == '"' then
        match takeStrBody cs1 with
        | none => none
        | some (k, r1) =>
          match jsonSkipWs r1 with
          | [] => none
          | c2 :: r2 =>
            if c2 == ':' then
              match parseVal (jsonSkipWs r2) with
              | none => none
              | some (v, r3) =>
                match jsonSkipWs r3 with
                | [] => none
                | c3 :: r4 =>
                  if c3 == ',' then
                    match parseFieldsFuel fuel (jsonSkipWs r4) with
                    | none => none
                    | some (fs, r5) => some ((String.mk k, v) :: fs, r5)
                  else if c3 == '}' then some ([(String.mk k, v)], r4)
                  else none
            else none
      else none

/-- `json.loads` on an object document: the whole input must be consumed
(up to trailing whitespace), as `json.loads` requires. -/
def jsonLoads (s : List Char) : Option JPayload :=
  match jsonSkipWs s with
  | [] => none
  | c :: r =>
    if c == '{' then
      match jsonSkipWs r with
      | [] => none
      | c2 :: r2 =>
        if c2 == '}' then (if (jsonSkipWs r2).isEmpty then some ⟨[]⟩ else none)
        else
          match parseFieldsFuel ((c2 :: r2).length + 1) (c2 :: r2) with
          | some (fs, r3) => if (jsonSkipWs r3).isEmpty then some ⟨fs⟩ else none
          | none => none
    else none

/-- The literal characters of the regex anchor `DATA:`. -/
def dataPat : List Char := ['D', 'A', 'T', 'A', ':']

/-- `\{.*?\}` after the opening brace: everything up to and including the
first closing brace (non-greedy `.*?` under DOTALL). -/
def takeBraced : List Char → Option (List Char)
  | [] => none
  | c :: cs => if c == '}' then some ['}'] else (takeBraced cs).map (fun g => c :: g)

/-- One attempt of the regex `DATA:\s*(\{.*?\})` anchored at the head of the
input; returns group 1 on success. -/
def matchDataAt (cs : List Char) : Option (List Char) :=
  if dataPat.isPrefixOf cs then
    match (cs.drop 5).dropWhile isWsChar with
    | '{' :: tail => (takeBraced tail).map (fun g => '{' :: g)
    | _ => none
  else none

/-- `re.search(r'DATA:\s*(\{.*?\})', s, re.DOTALL)`, group 1: the attempt is
made at every position left to right, exactly as `re.search` scans. -/
def reSearchData : List Char → Option (List Char)
  | [] => none
  | c :: cs =>
    match matchDataAt (c :: cs) with
    | some g => some g
    | none => reSearchData cs

/-- The downstream parse of one message content in `_analyst_node`: regex
extraction, then `json.loads`; a failed match and a `JSONDecodeError` are
both silent failures. -/
def extractDataPayload (content : String) : Option JPayload :=
  match reSearchData content.data with
  | some g => jsonLoads g
  | none => none

/-- The `for msg in result_messages` scan of `_analyst_node`: the first
message whose content yields a successfully decoded `DATA:` payload wins; a
message whose match fails to decode is skipped and the scan continues. -/
def extractRawData : List Message → Option JPayload
  | [] => none
  | m :: rest =>
    match extractDataPayload m.content with
    | some p => some p
    | none => extractRawData rest

/-- The canonical envelope `f"{summary} | DATA: {json.dumps(structured_data)}"`
returned by `execute_python_analysis`. -/
def envelope (summary : String) (p : JPayload) : String :=
  summary ++ " | DATA: " ++ String.mk (jsonDumps p)

/-- Printable-ASCII character that `json.dumps` leaves unescaped, excluding
the closing brace (which would end the regex group early).  All string
literals in the tool's payloads satisfy this. -/
def jsonPlainChar (c : Char) : Bool :=
  32 ≤ c.toNat && c.toNat < 127 && !(c == '"') && !(c == '\\') && !(c == '}')

/-- All characters of the string are plain. -/
def strOk (s : String) : Bool := s.data.all jsonPlainChar

/-- Well-formedness of a scalar: numbers have at least one integer digit,
strings are plain. -/
def JScalar.wf : JScalar → Bool
  | .snull => true
  | .snum _ ip _ => !ip.isEmpty
  | .sstr s => strOk s

/-- Well-formedness of a field value. -/
def JVal.wf : JVal → Bool
  | .prim v => v.wf
  | .arr es => es.all JScalar.wf

/-- Well-formedness of a payload: plain keys, well-formed values. -/
def JPayload.wf (p : JPayload) : Bool :=
  p.fields.all (fun kv => strOk kv.1 && kv.2.wf)

/-- A remainder that cannot extend a rendered number: empty, or headed by
a character that is neither a digit nor a decimal point. -/
def numDelim : List Char → Bool
  | [] => true
  | c :: _ => (charDigit c).isNone && !(c == '.')

/-! ### Code safety validator (`src/tools/security.py`)

`is_code_safe` first rejects any source text containing `"__"`, then runs
`ast.parse` (a collaborator: CPython's parser), then walks the tree and
rejects forbidden imports, forbidden `from`-imports and forbidden bare
names.  The parse result is modelled as the list of nodes `ast.walk` would
visit (the checks are per-node, so the walk order cannot change the
verdict): `Except` of an error for a `SyntaxError`. -/

/-- A node of the walked Python AST, as far as `is_code_safe` inspects it:
an `ast.Import` carries its alias names (possibly dotted; `asname` is never
read), an `ast.ImportFrom` carries its optional module, an `ast.Name`
carries its identifier, and every other node kind is opaque. -/
inductive PyAst where
  | importStmt (names : List String) : PyAst
  | importFrom (module : Option String) : PyAst
  | nameExpr (id : String) : PyAst
  | otherNode : PyAst
deriving DecidableEq, Repr

/-- The top-level component of a dotted module name:
`module_name.split(".")[0]`. -/
def topModule (name : String) : String := (pySplit name ".").headD ""

/-- One node passes the walk of `is_code_safe` (no forbidden import, no
forbidden `from`-import, no forbidden bare name). -/
def nodeSafe : PyAst → Bool
  | .importStmt names => names.all (fun n => !(FORBIDDEN_MODULES.contains (topModule n)))
  | .importFrom m =>
    match m with
    | some mod => !(FORBIDDEN_MODULES.contains (topModule mod))
    | none => true
  | .nameExpr id => !(FORBIDDEN_MODULES.contains id)
  | .otherNode => true

/-- `is_code_safe(code)` in `src/tools/security.py`, with the result of
`ast.parse(code)` supplied by the collaborator: reject on a `"__"`
substring, reject when parsing failed, otherwise accept iff every walked
node is safe. -/
def is_code_safe (code : String) (parsed : Except String (List PyAst)) : Bool :=
  if pyIn "__" code then false
  else
    match parsed with
    | .error _ => false
    | .ok tree => tree.all nodeSafe

/-! ### Supervisor router (`src/agents/supervisor.py`)

`SupervisorAgent.decide` invokes the structured-output chain (an LLM call
that either returns a `RouteResponse` or raises) inside a `try`, rewrites a
retired `Visualizer` target to `Business_Strategist`, validates against
`VALID_AGENTS`, and converts any exception to `("FINISH", "Supervisor
error: …")`.  The chain call is the `Except` parameter; the Lean function
is total, which is exactly the "never raises past its boundary" contract. -/

/-- The structured output schema `RouteResponse` of the supervisor chain. -/
structure RouteResponse where
  next : String
  reasoning : String
deriving DecidableEq, Repr

/-- `SupervisorAgent.decide`, given the outcome of the chain invocation. -/
def SupervisorAgent.decide (backend : Except String RouteResponse) : String × String :=
  match backend with
  | .error e => ("FINISH", "Supervisor error: " ++ e)
  | .ok decision =>
    let next_agent := decision.next
    let reasoning := decision.reasoning
    let rewritten :=
      if next_agent == "Visualizer" || pyIn "visualizer" (pyLower next_agent) then
        ("Business_Strategist",
          pyReplace (pyReplace reasoning "Visualizer" "Business_Strategist")
            "visualizer" "Business_Strategist")
      else (next_agent, reasoning)
    if !(VALID_AGENTS.contains rewritten.1) then
      ("FINISH", "Invalid routing '" ++ rewritten.1 ++ "' detected. Forcing termination.")
    else rewritten

/-! ### The team workflow nodes (`src/workflow/team.py`)

Each node takes the incoming state and returns a partial update (a Python
dict).  The worker agents' `invoke` calls and the supervisor's `decide`
call are collaborators that may raise, modelled as `Except` parameters. -/

/-- `state["messages"][-5:] if len(state["messages"]) > 5 else
state["messages"]`: the trailing window examined by `_supervisor_node`. -/
def recentMessages (state : AgentState) : List Message :=
  if state.messages.length > 5 then takeLast 5 state.messages else state.messages

/-- `" ".join(msg.content for msg in recent_messages)`. -/
def messageContents (state : AgentState) : String :=
  joinSpace ((recentMessages state).map Message.content)

/-- `has_analysis = "ANALYSIS:" in message_contents`. -/
def hasAnalysis (state : AgentState) : Bool := pyIn "ANALYSIS:" (messageContents state)

/-- `has_strategy = "STRATEGY:" in message_contents`. -/
def hasStrategy (state : AgentState) : Bool := pyIn "STRATEGY:" (messageContents state)

/-- The contents of the recent messages that contain `"[Supervisor]"`. -/
def supervisorMessages (state : AgentState) : List String :=
  ((recentMessages state).map Message.content).filter (fun c => pyIn "[Supervisor]" c)

/-- `msg.split("Routing to")[1].split(".")[0].strip()`: the agent name
recorded in a routing-trace message. -/
def extractAgentName (msg : String) : String :=
  pyStrip (((pySplit ((pySplit msg "Routing to").getD 1 "") ".").headD ""))

/-- The routing targets of the (up to) last three supervisor trace messages
that contain `"Routing to"`. -/
def lastRoutings (state : AgentState) : List String :=
  ((takeLast 3 (supervisorMessages state)).filter (fun m => pyIn "Routing to" m)).map
    extractAgentName

/-- `last_routings[-1]`, the repeatedly routed agent. -/
def repeatedAgent (state : AgentState) : String := (lastRoutings state).getLastD ""

/-- Whether the repeated agent produced its completion marker:
`"ANALYSIS:"` for `Data_Analyst`, `"STRATEGY:"` for `Business_Strategist`,
and `False` for anything else (the variable starts as `False` and no branch
assigns it). -/
def agentCompleted (agent : String) (state : AgentState) : Bool :=
  if agent == "Data_Analyst" then hasAnalysis state
  else if agent == "Business_Strategist" then hasStrategy state
  else false

/-- The guard of the loop-prevention early return in `_supervisor_node`:
at least two supervisor trace messages in the window, at least two recorded
routings, the last two routings identical (`len(set(...)) == 1`), the
repeated target not `FINISH`, and the repeated target's completion marker
absent. -/
def loopGuardFires (state : AgentState) : Bool :=
  decide ((supervisorMessages state).length ≥ 2) &&
    (let lr := lastRoutings state
     decide (lr.length ≥ 2) &&
       ((takeLast 2 lr).dedup.length == 1) &&
       !(repeatedAgent state == "FINISH") &&
       !(agentCompleted (repeatedAgent state) state))

/-- The partial update of the hard-cap early return (`_supervisor_node`,
iteration limit reached). -/
def capDelta : PartialState :=
  { messages := none
    iteration_count := none
    next_agent := some (some "FINISH")
    last_error := some (some "Max iterations reached")
    reasoning := some (some "Maximum iterations reached. Terminating workflow.")
    raw_data := none }

/-- The partial update of the completion-detection early return. -/
def completionDelta : PartialState :=
  { messages := none
    iteration_count := none
    next_agent := some (some "FINISH")
    last_error := some none
    reasoning := some (some "Analysis and strategy tasks completed successfully.")
    raw_data := none }

/-- The partial update of the loop-prevention early return. -/
def loopDelta (agent : String) : PartialState :=
  { messages := none
    iteration_count := none
    next_agent := some (some "FINISH")
    last_error := some none
    reasoning := some (some ("Prevented infinite loop: " ++ agent ++
      " was called multiple times without completing its task."))
    raw_data := none }

/-- The model-backed tail of `_supervisor_node`: call `supervisor.decide`
inside a `try` (the `Except` parameter), validate against `VALID_AGENTS`,
apply the duplicate-strategy guard, and otherwise append the
`"[Supervisor] Routing to …"` trace message and route. -/
def routerBranch (d : Except String (String × String)) (state : AgentState) : PartialState :=
  match d with
  | .error e =>
    { messages := none
      iteration_count := none
      next_agent := some (some "FINISH")
      last_error := some (some ("Supervisor failure: " ++ e))
      reasoning := some (some ("Supervisor error: " ++ e))
      raw_data := none }
  | .ok (next_agent, reasoning) =>
    if !(VALID_AGENTS.contains next_agent) then
      { messages := none
        iteration_count := none
        next_agent := some (some "FINISH")
        last_error := some (some ("Invalid routing: " ++ next_agent))
        reasoning := some (some ("Invalid routing '" ++ next_agent ++ "'. Forcing termination."))
        raw_data := none }
    else if next_agent == "Business_Strategist" && hasStrategy state then
      { messages := none
        iteration_count := none
        next_agent := some (some "FINISH")
        last_error := some none
        reasoning := some (some "Strategy already completed. Task is finished.")
        raw_data := none }
    else
      { messages := some (state.messages ++
          [{ role := Role.ai
             content := "[Supervisor] Routing to " ++ next_agent ++
               ". Reasoning: " ++ reasoning }])
        iteration_count := none
        next_agent := some (some next_agent)
        last_error := some none
        reasoning := some (some reasoning)
        raw_data := none }

/-- `_supervisor_node` in `src/workflow/team.py`: hard cap, then completion
detection, then loop prevention, then the model-backed decision. -/
def supervisorNode (max_iterations : Nat) (d : Except String (String × String))
    (state : AgentState) : PartialState :=
  if state.iteration_count ≥ max_iterations then capDelta
  else if hasAnalysis state && hasStrategy state then completionDelta
  else if loopGuardFires state then loopDelta (repeatedAgent state)
  else routerBranch d state

/-- `_analyst_node` in `src/workflow/team.py`: on success, append the
agent's messages, bump the iteration count, clear `next_agent` and
`last_error`, and store the parsed `DATA:` payload (which is `None` when no
message parsed); on an exception, append a synthetic error message, bump
the iteration count and record the error, preserving the existing
`raw_data`. -/
def analystNode (invoke : Except String (List Message)) (state : AgentState) : PartialState :=
  match invoke with
  | .ok result_messages =>
    { messages := some (state.messages ++ result_messages)
      iteration_count := some (state.iteration_count + 1)
      next_agent := some none
      last_error := some none
      reasoning := none
      raw_data := some (extractRawData result_messages) }
  | .error e =>
    { messages := some (state.messages ++
        [{ role := Role.ai, content := "ERROR: Data_Analyst failed: " ++ e }])
      iteration_count := some (state.iteration_count + 1)
      next_agent := some none
      last_error := some (some e)
      reasoning := none
      raw_data := some state.raw_data }

/-- `_strategist_node` in `src/workflow/team.py`: as the analyst node but
with no `raw_data` handling at all. -/
def strategistNode (invoke : Except String (List Message)) (state : AgentState) : PartialState :=
  match invoke with
  | .ok result_messages =>
    { messages := some (state.messages ++ result_messages)
      iteration_count := some (state.iteration_count + 1)
      next_agent := some none
      last_error := some none
      reasoning := none
      raw_data := none }
  | .error e =>
    { messages := some (state.messages ++
        [{ role := Role.ai, content := "ERROR: Business_Strategist failed: " ++ e }])
      iteration_count := some (state.iteration_count + 1)
      next_agent := some none
      last_error := some (some e)
      reasoning := none
      raw_data := none }

/-! ### Engine runs and the streaming boundary (`run_stream` in
`src/workflow/team.py`)

A run is a sequence of node executions; each execution carries the node
and the behaviour of its collaborator calls for that step.  The engine
threads state by merging each node's partial update (`merge_partial_state`,
as `run_stream` does with every streamed partial).  After each merge,
`run_stream` truncates the message list to the trailing `message_window`
entries and only then emits the step's event; events carry the fields of
the source's dicts except the wall-clock timestamp, which is environment
time and is not modelled. -/

/-- One node execution: which node ran, with the outcome of its
collaborator call (the supervisor's chain call, or a worker agent's
`invoke`). -/
inductive NodeExec where
  | supervisor (d : Except String (String × String)) : NodeExec
  | analyst (invoke : Except String (List Message)) : NodeExec
  | strategist (invoke : Except String (List Message)) : NodeExec
deriving Repr

/-- The partial update produced by one node execution. -/
def execNode (max_iterations : Nat) (state : AgentState) : NodeExec → PartialState
  | .supervisor d => supervisorNode max_iterations d state
  | .analyst invoke => analystNode invoke state
  | .strategist invoke => strategistNode invoke state

/-- Whether the execution is a worker node (`Data_Analyst` or
`Business_Strategist`). -/
def NodeExec.isWorker : NodeExec → Bool
  | .supervisor _ => false
  | .analyst _ => true
  | .strategist _ => true

/-- The state after running a sequence of node executions, merging each
node's partial update into the state. -/
def runSteps (max_iterations : Nat) (state : AgentState) : List NodeExec → AgentState
  | [] => state
  | e :: rest =>
    runSteps max_iterations (merge_partial_state state (execNode max_iterations state e)) rest

/-- The sliding-window truncation of `run_stream`: if the history exceeds
the window, keep only the most recent `window` messages. -/
def applyWindow (window : Nat) (msgs : List Message) : List Message :=
  if msgs.length > window then takeLast window msgs else msgs

/-- A streamed event (`run_stream`), minus the wall-clock timestamp. -/
inductive StreamEvent where
  | start (data : String) : StreamEvent
  | decision (agent : String) (dec : Option String) (reasoning : Option String)
      (iteration_count : Nat) (last_error : Option String) : StreamEvent
  | action (agent : String) (output : String) (iteration_count : Nat)
      (last_error : Option String) : StreamEvent
  | finish (data : String) (final_iteration_count : Nat) : StreamEvent
  | error (err : String) : StreamEvent
deriving DecidableEq, Repr

/-- `state["messages"][-1].content if state["messages"] else ""`. -/
def lastContent (msgs : List Message) : String :=
  match msgs.getLast? with
  | some m => m.content
  | none => ""

/-- One iteration of the `for node_name, partial in step.items()` body of
`run_stream`: merge the partial update, apply the message window, then
build the event for this step from the (already windowed) state. -/
def streamStep (window : Nat) (state : AgentState) (node_name : String)
    (p : PartialState) : AgentState × StreamEvent :=
  let merged := merge_partial_state state p
  let windowed := { merged with messages := applyWindow window merged.messages }
  let event :=
    if node_name == "supervisor" then
      StreamEvent.decision "Supervisor" windowed.next_agent windowed.reasoning
        windowed.iteration_count windowed.last_error
    else
      StreamEvent.action node_name (lastContent windowed.messages)
        windowed.iteration_count windowed.last_error
  (windowed, event)

/-- The state tracked by `run_stream` after consuming a list of streamed
`(node_name, partial)` steps, starting from `create_initial_state(query)`. -/
def runStreamStates (window : Nat) (query : String)
    (steps : List (String × PartialState)) : AgentState :=
  steps.foldl (fun st step => (streamStep window st step.1 step.2).1)
    (create_initial_state query)

/-! ### Basic facts about the merge, the nodes and the stream step -/

/-- `merge_partial_state` has no branch for `raw_data`: the merged state's
`raw_data` is the incoming state's, whatever the partial update carries. -/
theorem merge_raw_data (s : AgentState) (p : PartialState) :
    (merge_partial_state s p).raw_data = s.raw_data := rfl

/-- A partial update without an `iteration_count` key leaves the merged
iteration count unchanged. -/
theorem merge_iteration_of_none (s : AgentState) (p : PartialState)
    (h : p.iteration_count = none) :
    (merge_partial_state s p).iteration_count = s.iteration_count := by
  simp [merge_partial_state, h]

/-- A partial update with an `iteration_count` key overwrites the merged
iteration count. -/
theorem merge_iteration_of_some (s : AgentState) (p : PartialState) (n : Nat)
    (h : p.iteration_count = some n) :
    (merge_partial_state s p).iteration_count = n := by
  simp [merge_partial_state, h]

/-- Every early return and every branch of the model-backed tail of
`_supervisor_node` omits the `iteration_count` key. -/
theorem supervisorNode_iteration (m : Nat) (d : Except String (String × String))
    (s : AgentState) : (supervisorNode m d s).iteration_count = none := by
  unfold supervisorNode routerBranch
  repeat' split
  all_goals rfl

/-- Both branches of `_analyst_node` set `iteration_count` to the incoming
count plus one. -/
theorem analystNode_iteration (invoke : Except String (List Message)) (s : AgentState) :
    (analystNode invoke s).iteration_count = some (s.iteration_count + 1) := by
  cases invoke <;> rfl

/-- Both branches of `_strategist_node` set `iteration_count` to the
incoming count plus one. -/
theorem strategistNode_iteration (invoke : Except String (List Message)) (s : AgentState) :
    (strategistNode invoke s).iteration_count = some (s.iteration_count + 1) := by
  cases invoke <;> rfl

/-- The per-step state update of `run_stream` never changes `raw_data`. -/
theorem streamStep_raw_data (w : Nat) (st : AgentState) (n : String) (p : PartialState) :
    (streamStep w st n p).1.raw_data = st.raw_data := rfl

/-- Iteration bookkeeping of a whole run: each worker execution adds one,
supervisor executions add nothing. -/
theorem runSteps_iteration (m : Nat) :
    ∀ (execs : List NodeExec) (s : AgentState),
      (runSteps m s execs).iteration_count =
        s.iteration_count + (execs.filter NodeExec.isWorker).length
  | [], s => by simp [runSteps]
  | NodeExec.supervisor d :: rest, s => by
    have ih := runSteps_iteration m rest (merge_partial_state s (supervisorNode m d s))
    simp only [runSteps, execNode]
    rw [ih, merge_iteration_of_none _ _ (supervisorNode_iteration m d s), List.filter_cons]
    simp [NodeExec.isWorker]
  | NodeExec.analyst invoke :: rest, s => by
    have ih := runSteps_iteration m rest (merge_partial_state s (analystNode invoke s))
    simp only [runSteps, execNode]
    rw [ih, merge_iteration_of_some _ _ _ (analystNode_iteration invoke s), List.filter_cons]
    simp only [NodeExec.isWorker, if_true, List.length_cons]
    omega
  | NodeExec.strategist invoke :: rest, s => by
    have ih := runSteps_iteration m rest (merge_partial_state s (strategistNode invoke s))
    simp only [runSteps, execNode]
    rw [ih, merge_iteration_of_some _ _ _ (strategistNode_iteration invoke s), List.filter_cons]
    simp only [NodeExec.isWorker, if_true, List.length_cons]
    omega

/-! ### Claim C5 — iteration-count bookkeeping -/

/-- C5.  Every worker-node execution (analyst or strategist, success or
error) returns a delta whose `iteration_count` is the incoming count plus
exactly one; the supervisor node never carries the key, so merging its
delta leaves the count unchanged; over any run, the count after `N`
worker-node executions is the initial value plus `N`, hence it never
decreases. -/
theorem iteration_count_bookkeeping :
    (∀ (invoke : Except String (List Message)) (s : AgentState),
        (analystNode invoke s).iteration_count = some (s.iteration_count + 1)) ∧
    (∀ (invoke : Except String (List Message)) (s : AgentState),
        (strategistNode invoke s).iteration_count = some (s.iteration_count + 1)) ∧
    (∀ (m : Nat) (d : Except String (String × String)) (s : AgentState),
        (merge_partial_state s (supervisorNode m d s)).iteration_count =
          s.iteration_count) ∧
    (∀ (m : Nat) (s : AgentState) (execs : List NodeExec),
        (runSteps m s execs).iteration_count =
          s.iteration_count + (execs.filter NodeExec.isWorker).length) ∧
    (∀ (m : Nat) (s : AgentState) (execs : List NodeExec),
        s.iteration_count ≤ (runSteps m s execs).iteration_count) := by
  refine ⟨analystNode_iteration, strategistNode_iteration, ?_, ?_, ?_⟩
  · intro m d s
    exact merge_iteration_of_none _ _ (supervisorNode_iteration m d s)
  · intro m s execs
    exact runSteps_iteration m execs s
  · intro m s execs
    rw [runSteps_iteration m execs s]
    exact Nat.le_add_right _ _

/-! ### Claim C10 — `raw_data` is never merged -/

/-- C10.  `merge_partial_state` ignores a `raw_data` key in any delta: the
merged state's `raw_data` always equals the incoming state's.  As a
consequence the state that `run_stream` tracks and emits keeps `raw_data`
at its initial `None` for the whole run, whatever deltas the nodes stream
(including an analyst delta carrying a parsed payload). -/
theorem raw_data_never_merged :
    (∀ (s : AgentState) (p : PartialState),
        (merge_partial_state s p).raw_data = s.raw_data) ∧
    (∀ (w : Nat) (q : String) (steps : List (String × PartialState)),
        (runStreamStates w q steps).raw_data = none) := by
  refine ⟨merge_raw_data, ?_⟩
  intro w q steps
  suffices h : ∀ (l : List (String × PartialState)) (st : AgentState),
      st.raw_data = none →
      (l.foldl (fun st step => (streamStep w st step.1 step.2).1) st).raw_data = none by
    exact h steps (create_initial_state q) rfl
  intro l
  induction l with
  | nil => intro st h; simpa using h
  | cons step rest ih =>
    intro st h
    simp only [List.foldl_cons]
    exact ih _ (by rw [streamStep_raw_data]; exact h)

/-! ### Claim C9 — a failed `DATA:` parse does not clear `raw_data` -/

/-- C9.  When the analyst node's parse of the trailing `DATA:` suffix fails
over all of the worker's messages, the node's delta carries `raw_data =
None` — yet the state's prior `raw_data` survives the application of the
delta unchanged, because `merge_partial_state` has no `raw_data` branch. -/
theorem analyst_parse_failure_preserves_raw_data (s : AgentState)
    (result_messages : List Message)
    (h : extractRawData result_messages = none) :
    (analystNode (Except.ok result_messages) s).raw_data = some none ∧
    (merge_partial_state s (analystNode (Except.ok result_messages) s)).raw_data =
      s.raw_data := by
  constructor
  · simp [analystNode, h]
  · exact merge_raw_data s _

/-- Witness for C9: a concrete state holding a payload, and a worker
message with no parsable `DATA:` suffix; the payload survives. -/
theorem analyst_parse_failure_preserves_raw_data_witness :
    (merge_partial_state
        { messages := [{ role := Role.human, content := "analyze sales" }]
          next_agent := none
          iteration_count := 3
          last_error := none
          reasoning := none
          raw_data := some ⟨[("type", JVal.prim (JScalar.sstr "general"))]⟩ }
        (analystNode (Except.ok [{ role := Role.ai, content := "no structured output" }])
          { messages := [{ role := Role.human, content := "analyze sales" }]
            next_agent := none
            iteration_count := 3
            last_error := none
            reasoning := none
            raw_data := some ⟨[("type", JVal.prim (JScalar.sstr "general"))]⟩ })).raw_data =
      some ⟨[("type", JVal.prim (JScalar.sstr "general"))]⟩ :=
  (analyst_parse_failure_preserves_raw_data _ _ (by decide)).2

/-! ### Claim C4 — the supervisor router never leaks an invalid agent -/

/-- C4.  `SupervisorAgent.decide` is a total function of the backend
outcome (it never raises: a raised backend exception is the `Except.error`
case and is converted, all other code paths are pure).  Its returned
`next` value always lies in `VALID_AGENTS`; any backend failure becomes
`("FINISH", "Supervisor error: …")`; and the retired `"Visualizer"` name
is rewritten to `"Business_Strategist"` before validation, so it routes
rather than being rejected. -/
theorem supervisor_decide_validated :
    (∀ (backend : Except String RouteResponse),
        VALID_AGENTS.contains (SupervisorAgent.decide backend).1 = true) ∧
    (∀ (e : String),
        SupervisorAgent.decide (Except.error e) = ("FINISH", "Supervisor error: " ++ e)) ∧
    (∀ (r : String),
        (SupervisorAgent.decide (Except.ok { next := "Visualizer", reasoning := r })).1 =
          "Business_Strategist") := by
  refine ⟨?_, fun e => rfl, fun r => rfl⟩
  intro backend
  cases backend with
  | error e => rfl
  | ok decision =>
    by_cases h1 :
        (decision.next == "Visualizer" || pyIn "visualizer" (pyLower decision.next)) = true
    · simp only [SupervisorAgent.decide, h1, if_true]
      rfl
    · rw [Bool.not_eq_true] at h1
      by_cases h2 : VALID_AGENTS.contains decision.next = true
      · have h2m : decision.next ∈ VALID_AGENTS := by simpa using h2
        simp [SupervisorAgent.decide, h1, h2m]
      · rw [Bool.not_eq_true] at h2
        have h2m : decision.next ∉ VALID_AGENTS := by simpa using h2
        simp only [SupervisorAgent.decide, h1, Bool.false_eq_true, if_false]
        split
        · rfl
        · next hmem =>
          simp at hmem
          exact absurd hmem h2m

/-! ### Claim C1 — the iteration cap forces FINISH, but DOES set `lastError`

The hard-cap early return of `_supervisor_node` forces `FINISH` regardless
of the messages, as claimed — but its delta carries
`last_error = "Max iterations reached"`, so the cap is recorded as an
error, contradicting the claim that `lastError` is left unset. -/

/-- Counterexample to C1 as stated: a concrete state at the default cap.
The supervisor node forces `FINISH` (so this is the CapExceeded outcome),
and the merged state's `lastError` is not unset — it is
`"Max iterations reached"`. -/
theorem cap_sets_last_error_counterexample :
    (merge_partial_state
        { messages := [{ role := Role.human, content := "hi" }]
          next_agent := none
          iteration_count := 10
          last_error := none
          reasoning := none
          raw_data := none }
        (supervisorNode MAX_ITERATIONS_DEFAULT (Except.ok ("Data_Analyst", "r"))
          { messages := [{ role := Role.human, content := "hi" }]
            next_agent := none
            iteration_count := 10
            last_error := none
            reasoning := none
            raw_data := none })).next_agent = some "FINISH" ∧
    ¬ ((merge_partial_state
        { messages := [{ role := Role.human, content := "hi" }]
          next_agent := none
          iteration_count := 10
          last_error := none
          reasoning := none
          raw_data := none }
        (supervisorNode MAX_ITERATIONS_DEFAULT (Except.ok ("Data_Analyst", "r"))
          { messages := [{ role := Role.human, content := "hi" }]
            next_agent := none
            iteration_count := 10
            last_error := none
            reasoning := none
            raw_data := none })).last_error = none) := by
  constructor <;> decide

/-- C1, amended.  For every state with `iterationCount ≥ maxIterations`,
the supervisor node returns the cap delta: `nextAgent = FINISH` regardless
of message content and of the router's behaviour — but `lastError` is set
to `"Max iterations reached"` (the cap IS recorded as an error), not left
unset. -/
theorem cap_forces_finish (m : Nat) (d : Except String (String × String))
    (s : AgentState) (h : s.iteration_count ≥ m) :
    supervisorNode m d s = capDelta ∧
    (merge_partial_state s (supervisorNode m d s)).next_agent = some "FINISH" ∧
    (merge_partial_state s (supervisorNode m d s)).last_error =
      some "Max iterations reached" := by
  have hnode : supervisorNode m d s = capDelta := by
    unfold supervisorNode
    rw [if_pos h]
  exact ⟨hnode, by rw [hnode]; rfl, by rw [hnode]; rfl⟩

/-- Witness for the amended C1 at a concrete over-cap state. -/
theorem cap_forces_finish_witness :
    (supervisorNode 2 (Except.error "backend down")
        { messages := []
          next_agent := none
          iteration_count := 5
          last_error := none
          reasoning := none
          raw_data := none }) = capDelta :=
  (cap_forces_finish 2 (Except.error "backend down")
    { messages := []
      next_agent := none
      iteration_count := 5
      last_error := none
      reasoning := none
      raw_data := none } (by decide)).1

/-! ### Claim C6 — the message window of `run_stream` -/

/-- C6.  After a step's partial result is merged, if the message list is
longer than the window, the tracked state keeps exactly the trailing
`window` messages (`msgs[-window:]`): the kept list has length `window`
and is a suffix of the merged list (so relative order is preserved) — and
the truncation happens before the step's event is built, so a worker
step's `action` event reports the last message, iteration count and error
of the windowed state. -/
theorem stream_window_truncation (window : Nat) (st : AgentState) (node_name : String)
    (p : PartialState) (h : window < (merge_partial_state st p).messages.length) :
    (streamStep window st node_name p).1.messages =
      takeLast window (merge_partial_state st p).messages ∧
    (streamStep window st node_name p).1.messages.length = window ∧
    (streamStep window st node_name p).1.messages <:+ (merge_partial_state st p).messages ∧
    ((node_name == "supervisor") = false →
      (streamStep window st node_name p).2 =
        StreamEvent.action node_name
          (lastContent (streamStep window st node_name p).1.messages)
          (streamStep window st node_name p).1.iteration_count
          (streamStep window st node_name p).1.last_error) := by
  have hwin : applyWindow window (merge_partial_state st p).messages =
      takeLast window (merge_partial_state st p).messages := by
    unfold applyWindow
    rw [if_pos h]
  refine ⟨?_, ?_, ?_, ?_⟩
  · show applyWindow window (merge_partial_state st p).messages = _
    exact hwin
  · show (applyWindow window (merge_partial_state st p).messages).length = window
    rw [hwin]
    unfold takeLast
    rw [List.length_drop]
    omega
  · show applyWindow window (merge_partial_state st p).messages <:+ _
    rw [hwin]
    exact List.drop_suffix _ _
  · intro hn
    show (if (node_name == "supervisor") = true then _ else _) = _
    rw [hn]
    rfl

/-- Witness for C6, the spec's Scenario 6: window 3, ten messages after
the merge — exactly the last three remain, in order, and the action event
reflects them. -/
theorem stream_window_truncation_witness :
    (streamStep 3
        { messages := (List.range 7).map
            (fun i => { role := Role.ai, content := toString i })
          next_agent := none
          iteration_count := 4
          last_error := none
          reasoning := none
          raw_data := none }
        "Data_Analyst"
        { messages := some ((List.range 10).map
            (fun i => { role := Role.ai, content := toString i }))
          iteration_count := some 5
          next_agent := some none
          last_error := some none
          reasoning := none
          raw_data := none }).1.messages =
      [{ role := Role.ai, content := "7" }, { role := Role.ai, content := "8" },
        { role := Role.ai, content := "9" }] := by
  have h := stream_window_truncation 3
    { messages := (List.range 7).map
        (fun i => { role := Role.ai, content := toString i })
      next_agent := none
      iteration_count := 4
      last_error := none
      reasoning := none
      raw_data := none }
    "Data_Analyst"
    { messages := some ((List.range 10).map
        (fun i => { role := Role.ai, content := toString i }))
      iteration_count := some 5
      next_agent := some none
      last_error := some none
      reasoning := none
      raw_data := none }
    (by decide)
  rw [h.1]
  decide

/-! ### Claims C2 and C3 — completion detection and loop prevention -/

/-- On the seeded first-turn state the trailing window is the single human
message, so the completion markers are looked for in the query itself. -/
theorem hasAnalysis_initial (q : String) :
    hasAnalysis (create_initial_state q) = pyIn "ANALYSIS:" q := rfl

/-- As `hasAnalysis_initial`, for the strategist marker. -/
theorem hasStrategy_initial (q : String) :
    hasStrategy (create_initial_state q) = pyIn "STRATEGY:" q := rfl

/-- A first-turn history has at most one message, so there can never be two
supervisor trace messages in the window: the loop guard cannot fire. -/
theorem loopGuard_initial (q : String) :
    loopGuardFires (create_initial_state q) = false := by
  have hlen : (supervisorMessages (create_initial_state q)).length ≤ 1 := by
    have h := List.length_filter_le (fun c => pyIn "[Supervisor]" c)
      (((create_initial_state q).messages).map Message.content)
    simpa [supervisorMessages, recentMessages, create_initial_state] using h
  unfold loopGuardFires
  rw [decide_eq_false (by omega : ¬ (supervisorMessages (create_initial_state q)).length ≥ 2)]
  exact Bool.false_and _

/-- C2.  Below the cap, when both sentinel markers occur in the joined
trailing window, the supervisor node returns the completion delta — for
every router behaviour `d`, i.e. without consulting the router.
Conversely, on a first-turn state whose query carries neither marker the
node falls through to the model-backed branch: completion detection never
forces FINISH there. -/
theorem completion_detection :
    (∀ (m : Nat) (d : Except String (String × String)) (s : AgentState),
        s.iteration_count < m →
        hasAnalysis s = true → hasStrategy s = true →
        supervisorNode m d s = completionDelta) ∧
    (∀ (m : Nat) (d : Except String (String × String)) (q : String),
        0 < m →
        pyIn "ANALYSIS:" q = false → pyIn "STRATEGY:" q = false →
        supervisorNode m d (create_initial_state q) =
          routerBranch d (create_initial_state q)) := by
  constructor
  · intro m d s hlt ha hs
    unfold supervisorNode
    rw [if_neg (by omega : ¬ s.iteration_count ≥ m)]
    rw [ha, hs]
    rfl
  · intro m d q hm ha hs
    unfold supervisorNode
    rw [if_neg (by simp [create_initial_state]; omega : ¬ (create_initial_state q).iteration_count ≥ m)]
    rw [hasAnalysis_initial, hasStrategy_initial, ha, hs, loopGuard_initial]
    rfl

/-- Witness for C2: a window with both deliverables forces the completion
delta; a fresh marker-free query reaches the router branch. -/
theorem completion_detection_witness :
    supervisorNode 10 (Except.ok ("Data_Analyst", "keep going"))
        { messages := [{ role := Role.ai, content := "ANALYSIS: revenue grew" },
            { role := Role.ai, content := "STRATEGY: expand north" }]
          next_agent := none
          iteration_count := 2
          last_error := none
          reasoning := none
          raw_data := none } = completionDelta ∧
    supervisorNode 10 (Except.ok ("Data_Analyst", "start with analysis"))
        (create_initial_state "What is our revenue trend?") =
      routerBranch (Except.ok ("Data_Analyst", "start with analysis"))
        (create_initial_state "What is our revenue trend?") :=
  ⟨(completion_detection).1 10 (Except.ok ("Data_Analyst", "keep going"))
      { messages := [{ role := Role.ai, content := "ANALYSIS: revenue grew" },
          { role := Role.ai, content := "STRATEGY: expand north" }]
        next_agent := none
        iteration_count := 2
        last_error := none
        reasoning := none
        raw_data := none } (by decide) (by decide) (by decide),
    (completion_detection).2 10 (Except.ok ("Data_Analyst", "start with analysis"))
      "What is our revenue trend?" (by decide) (by decide) (by decide)⟩

/-- The trailing two entries of a list determine its last element and force
its length to be at least two. -/
theorem takeLast_two_spec {α : Type} (l : List α) (a b : α) (d : α)
    (h : takeLast 2 l = [a, b]) : l.getLastD d = b ∧ 2 ≤ l.length := by
  have hlen : l.length - (l.length - 2) = 2 := by
    have := congrArg List.length h
    simpa [takeLast, List.length_drop] using this
  constructor
  · have hsplit : l.take (l.length - 2) ++ [a, b] = l := by
      rw [← h]
      exact List.take_append_drop _ l
    rw [← hsplit, List.getLastD_eq_getLast?, List.getLast?_append]
    rfl
  · omega

/-- C3.  Below the cap and short of completion, when the window holds at
least two supervisor trace messages whose last two recorded routings are
the same worker: if that worker's completion marker is absent the node
returns the loop-prevention delta (and the merged `lastError` is unset);
if the marker is present the node falls through to the model-backed
branch instead. -/
theorem loop_prevention :
    (∀ (m : Nat) (d : Except String (String × String)) (s : AgentState) (a : String),
        s.iteration_count < m →
        (hasAnalysis s && hasStrategy s) = false →
        2 ≤ (supervisorMessages s).length →
        takeLast 2 (lastRoutings s) = [a, a] →
        (a = "Data_Analyst" ∨ a = "Business_Strategist") →
        agentCompleted a s = false →
        supervisorNode m d s = loopDelta a ∧
          (merge_partial_state s (supervisorNode m d s)).last_error = none) ∧
    (∀ (m : Nat) (d : Except String (String × String)) (s : AgentState) (a : String),
        s.iteration_count < m →
        (hasAnalysis s && hasStrategy s) = false →
        2 ≤ (supervisorMessages s).length →
        takeLast 2 (lastRoutings s) = [a, a] →
        agentCompleted a s = true →
        supervisorNode m d s = routerBranch d s) := by
  constructor
  · intro m d s a hlt hnc hsm hlr hworker hmarker
    have hrep : repeatedAgent s = a := (takeLast_two_spec _ a a "" hlr).1
    have hlen2 : 2 ≤ (lastRoutings s).length := (takeLast_two_spec _ a a "" hlr).2
    have hguard : loopGuardFires s = true := by
      unfold loopGuardFires
      rw [decide_eq_true (by omega : (supervisorMessages s).length ≥ 2)]
      simp only []
      rw [decide_eq_true (by omega : (lastRoutings s).length ≥ 2), hlr, hrep, hmarker]
      rw [List.dedup_cons_of_mem (by simp)]
      rcases hworker with h | h <;> subst h <;> decide
    have hnode : supervisorNode m d s = loopDelta a := by
      unfold supervisorNode
      rw [if_neg (by omega : ¬ s.iteration_count ≥ m)]
      rw [hnc, if_neg (by simp), hguard, if_pos rfl, hrep]
    exact ⟨hnode, by rw [hnode]; rfl⟩
  · intro m d s a hlt hnc hsm hlr hmarker
    have hrep : repeatedAgent s = a := (takeLast_two_spec _ a a "" hlr).1
    have hguard : loopGuardFires s = false := by
      unfold loopGuardFires
      rw [hrep, hmarker]
      simp
    unfold supervisorNode
    rw [if_neg (by omega : ¬ s.iteration_count ≥ m)]
    rw [hnc, if_neg (by simp), hguard]
    rfl

/-- Witness for C3: two consecutive routings to `Data_Analyst` without an
`ANALYSIS:` deliverable trigger the loop delta; with the deliverable
present the router branch is reached instead. -/
theorem loop_prevention_witness :
    (supervisorNode 10 (Except.ok ("Data_Analyst", "retry"))
        { messages :=
            [{ role := Role.ai, content := "[Supervisor] Routing to Data_Analyst. Reasoning: go" },
             { role := Role.ai, content := "no useful output" },
             { role := Role.ai, content := "[Supervisor] Routing to Data_Analyst. Reasoning: again" }]
          next_agent := none
          iteration_count := 2
          last_error := none
          reasoning := none
          raw_data := none } = loopDelta "Data_Analyst") ∧
    (supervisorNode 10 (Except.ok ("Business_Strategist", "analysis done"))
        { messages :=
            [{ role := Role.ai, content := "[Supervisor] Routing to Data_Analyst. Reasoning: go" },
             { role := Role.ai, content := "ANALYSIS: revenue grew" },
             { role := Role.ai, content := "[Supervisor] Routing to Data_Analyst. Reasoning: again" }]
          next_agent := none
          iteration_count := 2
          last_error := none
          reasoning := none
          raw_data := none } =
      routerBranch (Except.ok ("Business_Strategist", "analysis done"))
        { messages :=
            [{ role := Role.ai, content := "[Supervisor] Routing to Data_Analyst. Reasoning: go" },
             { role := Role.ai, content := "ANALYSIS: revenue grew" },
             { role := Role.ai, content := "[Supervisor] Routing to Data_Analyst. Reasoning: again" }]
          next_agent := none
          iteration_count := 2
          last_error := none
          reasoning := none
          raw_data := none }) :=
  ⟨((loop_prevention).1 10 (Except.ok ("Data_Analyst", "retry"))
      { messages :=
          [{ role := Role.ai, content := "[Supervisor] Routing to Data_Analyst. Reasoning: go" },
           { role := Role.ai, content := "no useful output" },
           { role := Role.ai, content := "[Supervisor] Routing to Data_Analyst. Reasoning: again" }]
        next_agent := none
        iteration_count := 2
        last_error := none
        reasoning := none
        raw_data := none } "Data_Analyst"
      (by decide) (by decide) (by decide) (by decide) (Or.inl rfl) (by decide)).1,
    (loop_prevention).2 10 (Except.ok ("Business_Strategist", "analysis done"))
      { messages :=
          [{ role := Role.ai, content := "[Supervisor] Routing to Data_Analyst. Reasoning: go" },
           { role := Role.ai, content := "ANALYSIS: revenue grew" },
           { role := Role.ai, content := "[Supervisor] Routing to Data_Analyst. Reasoning: again" }]
        next_agent := none
        iteration_count := 2
        last_error := none
        reasoning := none
        raw_data := none } "Data_Analyst"
      (by decide) (by decide) (by decide) (by decide) (by decide)⟩

/-! ### Claim C7 — the code safety validator -/

/-- C7.  `is_code_safe` rejects: any code text containing `"__"` anywhere;
any code whose parse failed; any walked `ast.Import` with an alias whose
top-level module is forbidden; any `ast.ImportFrom` from a forbidden
top-level module; any bare `ast.Name` matching a forbidden name.  The
empty string parses to an empty module (a CPython fact) and is accepted.
Concretely, `"import os"` (parsing to a single `Import os` node) is
rejected and `"import pandas as pd"` (a single `Import pandas` node —
`asname` is never inspected) is accepted. -/
theorem code_safety_validator :
    (∀ (code : String) (parsed : Except String (List PyAst)),
        pyIn "__" code = true → is_code_safe code parsed = false) ∧
    (∀ (code : String) (e : String), is_code_safe code (Except.error e) = false) ∧
    (∀ (code : String) (tree : List PyAst) (names : List String) (n : String),
        PyAst.importStmt names ∈ tree → n ∈ names →
        FORBIDDEN_MODULES.contains (topModule n) = true →
        is_code_safe code (Except.ok tree) = false) ∧
    (∀ (code : String) (tree : List PyAst) (mod : String),
        PyAst.importFrom (some mod) ∈ tree →
        FORBIDDEN_MODULES.contains (topModule mod) = true →
        is_code_safe code (Except.ok tree) = false) ∧
    (∀ (code : String) (tree : List PyAst) (id : String),
        PyAst.nameExpr id ∈ tree →
        FORBIDDEN_MODULES.contains id = true →
        is_code_safe code (Except.ok tree) = false) ∧
    is_code_safe "" (Except.ok []) = true ∧
    is_code_safe "import os" (Except.ok [PyAst.importStmt ["os"]]) = false ∧
    is_code_safe "import pandas as pd" (Except.ok [PyAst.importStmt ["pandas"]]) = true := by
  have hbad : ∀ (code : String) (tree : List PyAst) (nd : PyAst),
      nd ∈ tree → nodeSafe nd = false → is_code_safe code (Except.ok tree) = false := by
    intro code tree nd hmem hunsafe
    unfold is_code_safe
    split
    · rfl
    · have : ¬ tree.all nodeSafe = true := by
        rw [List.all_eq_true]
        intro hall
        rw [hall nd hmem] at hunsafe
        cases hunsafe
      simpa using this
  refine ⟨?_, ?_, ?_, ?_, ?_, by decide, by decide, by decide⟩
  · intro code parsed h
    unfold is_code_safe
    rw [if_pos h]
  · intro code e
    unfold is_code_safe
    split <;> rfl
  · intro code tree names n hmem hn hforb
    refine hbad code tree _ hmem ?_
    have : ¬ names.all (fun x => !(FORBIDDEN_MODULES.contains (topModule x))) = true := by
      rw [List.all_eq_true]
      intro hall
      have := hall n hn
      rw [hforb] at this
      cases this
    simpa [nodeSafe] using this
  · intro code tree mod hmem hforb
    refine hbad code tree _ hmem ?_
    simp only [nodeSafe, Bool.not_eq_false']
    exact hforb
  · intro code tree id hmem hforb
    refine hbad code tree _ hmem ?_
    simp only [nodeSafe, Bool.not_eq_false']
    exact hforb

/-- Witness for C7: a forbidden `from`-import and a forbidden bare name,
each rejected through the theorem's universal clauses. -/
theorem code_safety_validator_witness :
    is_code_safe "from subprocess import run" (Except.ok [PyAst.importFrom (some "subprocess")]) =
      false ∧
    is_code_safe "print(eval)" (Except.ok [PyAst.otherNode, PyAst.nameExpr "eval"]) = false :=
  ⟨(code_safety_validator).2.2.2.1 "from subprocess import run"
      [PyAst.importFrom (some "subprocess")] "subprocess" (by decide) (by decide),
    (code_safety_validator).2.2.2.2.1 "print(eval)"
      [PyAst.otherNode, PyAst.nameExpr "eval"] "eval" (by decide) (by decide)⟩

/-! ### Round-trip lemmas: the parser inverts `json.dumps` on well-formed
payloads -/

/-- `charDigit` inverts `digitChar`. -/
theorem charDigit_digitChar : ∀ d : Fin 10, charDigit (digitChar d) = some d := by decide

/-- Digit characters are not the tokens the scalar parser dispatches on. -/
theorem digitChar_facts : ∀ d : Fin 10,
    (digitChar d == '"') = false ∧ (digitChar d == 'n') = false ∧
    (digitChar d == '-') = false ∧ (digitChar d == '[') = false ∧
    (digitChar d == ']') = false ∧ (digitChar d == '}') = false ∧
    isWsChar (digitChar d) = false := by decide

/-- `spanDigits` consumes exactly a rendered digit run, stopping at a
non-digit remainder. -/
theorem spanDigits_append (ds : List (Fin 10)) (rest : List Char)
    (h : ∀ c ∈ rest.head?, charDigit c = none) :
    spanDigits (ds.map digitChar ++ rest) = (ds, rest) := by
  induction ds with
  | nil =>
    cases rest with
    | nil => rfl
    | cons c t =>
      simp only [List.map_nil, List.nil_append, spanDigits]
      rw [h c (by simp)]
  | cons d ds ih =>
    simp only [List.map_cons, List.cons_append, spanDigits, charDigit_digitChar,
      List.append_eq, ih]

/-- A `numDelim` remainder does not start with a digit. -/
theorem numDelim_no_digit (rest : List Char) (h : numDelim rest = true) :
    ∀ c ∈ rest.head?, charDigit c = none := by
  cases rest with
  | nil => simp
  | cons c t =>
    simp only [numDelim, Bool.and_eq_true, Option.isNone_iff_eq_none] at h
    intro x hx
    simp only [List.head?_cons, Option.mem_def, Option.some.injEq] at hx
    rw [← hx]
    exact h.1

/-- `parseNumTail` inverts the digit rendering of a number after the sign,
for any `numDelim` remainder. -/
theorem parseNumTail_append (neg : Bool) (ip frac : List (Fin 10)) (rest : List Char)
    (hip : ip ≠ []) (h : numDelim rest = true) :
    parseNumTail neg (ip.map digitChar ++
        (if frac.isEmpty then [] else '.' :: frac.map digitChar) ++ rest) =
      some (JScalar.snum neg ip frac, rest) := by
  obtain ⟨d, ds, rfl⟩ := List.exists_cons_of_ne_nil hip
  cases frac with
  | nil =>
    simp only [List.isEmpty_nil, if_true, List.append_nil, List.nil_append]
    unfold parseNumTail
    rw [spanDigits_append _ _ (numDelim_no_digit rest h)]
    cases rest with
    | nil => rfl
    | cons c t =>
      simp only [numDelim, Bool.and_eq_true, Bool.not_eq_true'] at h
      simp [h.2]
  | cons f fs =>
    simp only [List.isEmpty_cons, Bool.false_eq_true, if_false]
    unfold parseNumTail
    rw [List.append_assoc, List.cons_append]
    rw [spanDigits_append (d :: ds) ('.' :: ((f :: fs).map digitChar ++ rest))
      (by intro c hc; simp only [List.head?_cons, Option.mem_def, Option.some.injEq] at hc;
          rw [← hc]; rfl)]
    simp only []
    rw [if_pos (by decide : (('.' : Char) == '.') = true)]
    rw [spanDigits_append (f :: fs) rest (numDelim_no_digit rest h)]

/-- `takeStrBody` consumes exactly a rendered (quote-free) string body up
to the closing quote. -/
theorem takeStrBody_append (s rest : List Char) (h : ∀ c ∈ s, (c == '"') = false) :
    takeStrBody (s ++ '"' :: rest) = some (s, rest) := by
  induction s with
  | nil => rfl
  | cons c t ih =>
    simp only [List.cons_append, takeStrBody]
    rw [h c (by simp)]
    simp only [Bool.false_eq_true, if_false, List.append_eq]
    rw [ih (fun x hx => h x (by simp [hx]))]
    rfl

/-- A plain string contains no quote characters. -/
theorem strOk_no_quote (s : String) (h : strOk s = true) :
    ∀ c ∈ s.data, (c == '"') = false := by
  intro c hc
  have := (List.all_eq_true.mp h) c hc
  simp only [jsonPlainChar, Bool.and_eq_true, Bool.not_eq_true'] at this
  tauto

/-- A plain string contains no closing braces. -/
theorem strOk_no_rbrace (s : String) (h : strOk s = true) :
    ∀ c ∈ s.data, (c == '}') = false := by
  intro c hc
  have := (List.all_eq_true.mp h) c hc
  simp only [jsonPlainChar, Bool.and_eq_true, Bool.not_eq_true'] at this
  tauto

/-- The scalar parser inverts `dumpScalar` on well-formed scalars, for any
`numDelim` remainder. -/
theorem parseScalar_append (v : JScalar) (rest : List Char) (hwf : v.wf = true)
    (h : numDelim rest = true) :
    parseScalar (dumpScalar v ++ rest) = some (v, rest) := by
  cases v with
  | snull => rfl
  | sstr s =>
    simp only [dumpScalar, List.cons_append, List.append_assoc, List.nil_append,
      List.cons_append, parseScalar]
    rw [if_pos (by decide : (('"' : Char) == '"') = true)]
    rw [takeStrBody_append s.data rest (strOk_no_quote s hwf)]
    rfl
  | snum neg ip frac =>
    have hip : ip ≠ [] := by
      intro hnil
      subst hnil
      simp [JScalar.wf] at hwf
    cases neg with
    | true =>
      simp only [dumpScalar, if_true, List.cons_append, List.append_assoc, parseScalar]
      rw [if_neg (by decide : ¬ (('-' : Char) == '"') = true),
        if_neg (by decide : ¬ (('-' : Char) == 'n') = true),
        if_pos (by decide : (('-' : Char) == '-') = true)]
      have := parseNumTail_append true ip frac rest hip h
      simpa [List.append_assoc] using this
    | false =>
      obtain ⟨d, ds, rfl⟩ := List.exists_cons_of_ne_nil hip
      simp only [dumpScalar, Bool.false_eq_true, if_false, List.nil_append, List.map_cons,
        List.cons_append, List.append_assoc, parseScalar]
      rw [if_neg (by simp [(digitChar_facts d).1]),
        if_neg (by simp [(digitChar_facts d).2.1]),
        if_neg (by simp [(digitChar_facts d).2.2.1])]
      have := parseNumTail_append false (d :: ds) frac rest (by simp) h
      simpa [List.append_assoc] using this

/-- Every rendered scalar starts with a character that is not whitespace,
not an opening or closing bracket, and not a closing brace. -/
theorem dumpScalar_head (v : JScalar) (hwf : v.wf = true) :
    ∃ c cs, dumpScalar v = c :: cs ∧ isWsChar c = false ∧ (c == '[') = false ∧
      (c == ']') = false ∧ (c == '}') = false := by
  cases v with
  | snull => exact ⟨'n', _, rfl, by decide, by decide, by decide, by decide⟩
  | sstr s => exact ⟨'"', _, rfl, by decide, by decide, by decide, by decide⟩
  | snum neg ip frac =>
    have hip : ip ≠ [] := by
      intro hnil
      subst hnil
      simp [JScalar.wf] at hwf
    cases neg with
    | true => exact ⟨'-', _, rfl, by decide, by decide, by decide, by decide⟩
    | false =>
      obtain ⟨d, ds, rfl⟩ := List.exists_cons_of_ne_nil hip
      refine ⟨digitChar d,
        List.map digitChar ds ++ (if frac.isEmpty then [] else '.' :: List.map digitChar frac),
        by simp [dumpScalar], ?_, ?_, ?_, ?_⟩
      · exact (digitChar_facts d).2.2.2.2.2.2
      · exact (digitChar_facts d).2.2.2.1
      · exact (digitChar_facts d).2.2.2.2.1
      · exact (digitChar_facts d).2.2.2.2.2.1

/-- Skipping whitespace walks over a leading whitespace character. -/
theorem jsonSkipWs_cons_ws (c : Char) (t : List Char) (h : isWsChar c = true) :
    jsonSkipWs (c :: t) = jsonSkipWs t := by
  simp [jsonSkipWs, List.dropWhile_cons, h]

/-- Skipping whitespace stops at a non-whitespace head. -/
theorem jsonSkipWs_cons_not_ws (c : Char) (t : List Char) (h : isWsChar c = false) :
    jsonSkipWs (c :: t) = c :: t := by
  simp [jsonSkipWs, List.dropWhile_cons, h]

/-- `jsonSkipWs` is the identity on a rendered scalar and whatever follows. -/
theorem jsonSkipWs_dumpScalar (v : JScalar) (rest : List Char) (hwf : v.wf = true) :
    jsonSkipWs (dumpScalar v ++ rest) = dumpScalar v ++ rest := by
  obtain ⟨c, cs, hc, hws, -, -, -⟩ := dumpScalar_head v hwf
  rw [hc, List.cons_append, jsonSkipWs_cons_not_ws c _ hws]

/-- `jsonSkipWs` is the identity on a rendered non-empty element list and
whatever follows. -/
theorem jsonSkipWs_dumpElems (w : JScalar) (ws : List JScalar) (rest : List Char)
    (hwf : w.wf = true) :
    jsonSkipWs (dumpElems (w :: ws) ++ rest) = dumpElems (w :: ws) ++ rest := by
  cases ws with
  | nil => exact jsonSkipWs_dumpScalar w rest hwf
  | cons u us =>
    rw [show dumpElems (w :: u :: us) = dumpScalar w ++ ',' :: ' ' :: dumpElems (u :: us)
      from rfl]
    rw [List.append_assoc]
    rw [jsonSkipWs_dumpScalar w _ hwf]

/-- A rendered scalar is at least one character long. -/
theorem dumpScalar_length (v : JScalar) (hwf : v.wf = true) :
    1 ≤ (dumpScalar v).length := by
  obtain ⟨c, cs, hc, -⟩ := dumpScalar_head v hwf
  rw [hc]
  simp

/-- A rendered element list is at least as long as the element count. -/
theorem dumpElems_length (es : List JScalar) (h : es.all JScalar.wf = true) :
    es.length ≤ (dumpElems es).length := by
  induction es with
  | nil => simp [dumpElems]
  | cons v vs ih =>
    have hv : v.wf = true := by
      rw [List.all_eq_true] at h
      exact h v (by simp)
    have hvs : vs.all JScalar.wf = true := by
      rw [List.all_eq_true] at h ⊢
      exact fun x hx => h x (by simp [hx])
    cases vs with
    | nil =>
      simpa [dumpElems] using dumpScalar_length v hv
    | cons w ws =>
      have hrec := ih hvs
      have hlv := dumpScalar_length v hv
      rw [show dumpElems (v :: w :: ws) = dumpScalar v ++ ',' :: ' ' :: dumpElems (w :: ws)
        from rfl]
      simp only [List.length_append, List.length_cons] at hrec hlv ⊢
      omega

/-- The element parser inverts `dumpElems` on a non-empty well-formed
element list followed by the closing bracket. -/
theorem parseElemsFuel_append (es : List JScalar) :
    ∀ (fuel : Nat) (rest : List Char), es ≠ [] → es.all JScalar.wf = true →
    es.length ≤ fuel →
    parseElemsFuel fuel (dumpElems es ++ ']' :: rest) = some (es, rest) := by
  induction es with
  | nil => intro fuel rest hne; exact absurd rfl hne
  | cons v vs ih =>
    intro fuel rest hne hwf hfuel
    have hv : v.wf = true := by
      rw [List.all_eq_true] at hwf
      exact hwf v (by simp)
    have hvs : vs.all JScalar.wf = true := by
      rw [List.all_eq_true] at hwf ⊢
      exact fun x hx => hwf x (by simp [hx])
    obtain ⟨fuel', rfl⟩ : ∃ f, fuel = f + 1 := by
      cases fuel with
      | zero => simp at hfuel
      | succ f => exact ⟨f, rfl⟩
    cases vs with
    | nil =>
      simp only [dumpElems, parseElemsFuel]
      rw [parseScalar_append v (']' :: rest) hv rfl]
      rfl
    | cons w ws =>
      have hw : w.wf = true := by
        rw [List.all_eq_true] at hvs
        exact hvs w (by simp)
      rw [show dumpElems (v :: w :: ws) = dumpScalar v ++ ',' :: ' ' :: dumpElems (w :: ws)
        from rfl]
      simp only [parseElemsFuel, List.append_assoc, List.cons_append]
      simp only [parseScalar_append v (',' :: ' ' :: (dumpElems (w :: ws) ++ ']' :: rest)) hv
        rfl]
      simp only [jsonSkipWs_cons_not_ws ','
        (' ' :: (dumpElems (w :: ws) ++ ']' :: rest)) rfl]
      simp only [show ((',' : Char) == ',') = true from rfl, if_true]
      simp only [jsonSkipWs_cons_ws ' ' (dumpElems (w :: ws) ++ ']' :: rest) rfl]
      simp only [jsonSkipWs_dumpElems w ws (']' :: rest) hw]
      simp only [ih fuel' rest (by simp) hvs (by simpa using Nat.le_of_succ_le_succ hfuel)]

/-- A rendered non-empty element list starts with a scalar's head
character. -/
theorem dumpElems_cons_head (w : JScalar) (ws : List JScalar) (hw : w.wf = true) :
    ∃ c t, dumpElems (w :: ws) = c :: t ∧ isWsChar c = false ∧ (c == ']') = false := by
  obtain ⟨c, cs, hc, hws, -, hrb, -⟩ := dumpScalar_head w hw
  cases ws with
  | nil => exact ⟨c, cs, hc, hws, hrb⟩
  | cons u us =>
    refine ⟨c, cs ++ ',' :: ' ' :: dumpElems (u :: us), ?_, hws, hrb⟩
    rw [show dumpElems (w :: u :: us) = dumpScalar w ++ ',' :: ' ' :: dumpElems (u :: us)
      from rfl, hc, List.cons_append]

/-- The array-body parser inverts `dumpElems` followed by the closing
bracket, on non-empty well-formed element lists. -/
theorem parseArrBody_append (es : List JScalar) (rest : List Char) (hne : es ≠ [])
    (hwf : es.all JScalar.wf = true) :
    parseArrBody (dumpElems es ++ ']' :: rest) = some (JVal.arr es, rest) := by
  obtain ⟨w, ws, rfl⟩ := List.exists_cons_of_ne_nil hne
  have hw : w.wf = true := by
    rw [List.all_eq_true] at hwf
    exact hwf w (by simp)
  obtain ⟨c, t, ht, -, hrb⟩ := dumpElems_cons_head w ws hw
  have hlen := dumpElems_length (w :: ws) hwf
  rw [ht, List.cons_append]
  simp only [parseArrBody, hrb, Bool.false_eq_true, if_false]
  rw [← List.cons_append, ← ht]
  rw [parseElemsFuel_append (w :: ws) ((t ++ ']' :: rest).length + 2) rest (by simp) hwf
    (by
      rw [ht] at hlen
      simp only [List.length_cons, List.length_append] at hlen ⊢
      omega)]
  rfl

/-- The value parser inverts `dumpVal` on well-formed values, for any
`numDelim` remainder. -/
theorem parseVal_append (v : JVal) (rest : List Char) (hwf : v.wf = true)
    (h : numDelim rest = true) :
    parseVal (dumpVal v ++ rest) = some (v, rest) := by
  cases v with
  | prim s =>
    have hs : s.wf = true := hwf
    obtain ⟨c, cs, hc, -, hlb, -, -⟩ := dumpScalar_head s hs
    rw [show dumpVal (JVal.prim s) = dumpScalar s from rfl, hc, List.cons_append]
    simp only [parseVal, hlb, Bool.false_eq_true, if_false]
    rw [← List.cons_append, ← hc]
    rw [parseScalar_append s rest hs h]
    rfl
  | arr es =>
    cases es with
    | nil => rfl
    | cons w ws =>
      have hall : (w :: ws).all JScalar.wf = true := hwf
      have hw : w.wf = true := by
        rw [List.all_eq_true] at hall
        exact hall w (by simp)
      rw [show dumpVal (JVal.arr (w :: ws)) = '[' :: (dumpElems (w :: ws) ++ [']'])
        from rfl]
      simp only [List.cons_append, List.append_assoc, List.nil_append]
      simp only [parseVal, show (('[' : Char) == '[') = true from rfl, if_true]
      rw [jsonSkipWs_dumpElems w ws (']' :: rest) hw]
      exact parseArrBody_append (w :: ws) rest (by simp) hall

/-- `jsonSkipWs` is the identity on a rendered value and whatever follows. -/
theorem jsonSkipWs_dumpVal (v : JVal) (rest : List Char) (hwf : v.wf = true) :
    jsonSkipWs (dumpVal v ++ rest) = dumpVal v ++ rest := by
  cases v with
  | prim s => exact jsonSkipWs_dumpScalar s rest hwf
  | arr es =>
    rw [show dumpVal (JVal.arr es) = '[' :: (dumpElems es ++ [']']) from rfl,
      List.cons_append, jsonSkipWs_cons_not_ws '[' _ rfl]

/-- A rendered non-empty member list starts with the key's opening quote. -/
theorem dumpFields_cons_eq (f : String × JVal) (fs : List (String × JVal)) :
    dumpFields (f :: fs) = '"' :: (f.1.data ++ '"' :: ':' :: ' ' :: dumpVal f.2) ++
      (match fs with | [] => [] | _ :: _ => ',' :: ' ' :: dumpFields fs) := by
  obtain ⟨k, v⟩ := f
  cases fs with
  | nil => simp [dumpFields, dumpField]
  | cons g gs => simp [dumpFields, dumpField]

/-- `jsonSkipWs` is the identity on a rendered non-empty member list and
whatever follows. -/
theorem jsonSkipWs_dumpFields (f : String × JVal) (fs : List (String × JVal))
    (rest : List Char) :
    jsonSkipWs (dumpFields (f :: fs) ++ rest) = dumpFields (f :: fs) ++ rest := by
  rw [dumpFields_cons_eq, List.cons_append, List.cons_append,
    jsonSkipWs_cons_not_ws '"' _ rfl]

/-- A rendered member list is at least as long as the member count. -/
theorem dumpFields_length (fs : List (String × JVal)) :
    fs.length ≤ (dumpFields fs).length := by
  induction fs with
  | nil => simp [dumpFields]
  | cons f gs ih =>
    obtain ⟨k, v⟩ := f
    cases gs with
    | nil => simp [dumpFields, dumpField]
    | cons g gs' =>
      rw [show dumpFields ((k, v) :: g :: gs') =
        dumpField k v ++ ',' :: ' ' :: dumpFields (g :: gs') from rfl]
      simp only [List.length_cons, List.length_append, dumpField] at ih ⊢
      omega

/-- The member parser inverts `dumpFields` on a non-empty well-formed
member list followed by the closing brace. -/
theorem parseFieldsFuel_append (fs : List (String × JVal)) :
    ∀ (fuel : Nat) (rest : List Char), fs ≠ [] →
    (fs.all fun kv => strOk kv.1 && kv.2.wf) = true → fs.length ≤ fuel →
    parseFieldsFuel fuel (dumpFields fs ++ '}' :: rest) = some (fs, rest) := by
  induction fs with
  | nil => intro fuel rest hne; exact absurd rfl hne
  | cons f gs ih =>
    intro fuel rest hne hwf hfuel
    obtain ⟨k, v⟩ := f
    have hf : (strOk k && v.wf) = true := by
      rw [List.all_eq_true] at hwf
      exact hwf (k, v) (by simp)
    have hk : strOk k = true := by
      rw [Bool.and_eq_true] at hf
      exact hf.1
    have hv : v.wf = true := by
      rw [Bool.and_eq_true] at hf
      exact hf.2
    have hgs : (gs.all fun kv => strOk kv.1 && kv.2.wf) = true := by
      rw [List.all_eq_true] at hwf ⊢
      exact fun x hx => hwf x (by simp [hx])
    obtain ⟨fuel', rfl⟩ : ∃ fl, fuel = fl + 1 := by
      cases fuel with
      | zero => simp at hfuel
      | succ fl => exact ⟨fl, rfl⟩
    cases gs with
    | nil =>
      rw [show dumpFields [(k, v)] = '"' :: k.data ++ '"' :: ':' :: ' ' :: dumpVal v
        from rfl]
      simp only [parseFieldsFuel, List.cons_append, List.append_assoc]
      simp only [show (('"' : Char) == '"') = true from rfl, if_true,
        takeStrBody_append k.data (':' :: ' ' :: (dumpVal v ++ '}' :: rest))
          (strOk_no_quote k hk),
        jsonSkipWs_cons_not_ws ':' (' ' :: (dumpVal v ++ '}' :: rest)) rfl,
        show ((':' : Char) == ':') = true from rfl,
        jsonSkipWs_cons_ws ' ' (dumpVal v ++ '}' :: rest) rfl,
        jsonSkipWs_dumpVal v ('}' :: rest) hv,
        parseVal_append v ('}' :: rest) hv rfl]
      rfl
    | cons g gs' =>
      rw [show dumpFields ((k, v) :: g :: gs') =
        '"' :: k.data ++ '"' :: ':' :: ' ' :: dumpVal v ++ ',' :: ' ' :: dumpFields (g :: gs')
        from rfl]
      simp only [parseFieldsFuel, List.cons_append, List.append_assoc]
      simp only [show (('"' : Char) == '"') = true from rfl, if_true,
        takeStrBody_append k.data
          (':' :: ' ' :: (dumpVal v ++ ',' :: ' ' :: (dumpFields (g :: gs') ++ '}' :: rest)))
          (strOk_no_quote k hk),
        jsonSkipWs_cons_not_ws ':'
          (' ' :: (dumpVal v ++ ',' :: ' ' :: (dumpFields (g :: gs') ++ '}' :: rest))) rfl,
        show ((':' : Char) == ':') = true from rfl,
        jsonSkipWs_cons_ws ' '
          (dumpVal v ++ ',' :: ' ' :: (dumpFields (g :: gs') ++ '}' :: rest)) rfl,
        jsonSkipWs_dumpVal v (',' :: ' ' :: (dumpFields (g :: gs') ++ '}' :: rest)) hv,
        parseVal_append v (',' :: ' ' :: (dumpFields (g :: gs') ++ '}' :: rest)) hv rfl,
        jsonSkipWs_cons_not_ws ',' (' ' :: (dumpFields (g :: gs') ++ '}' :: rest)) rfl,
        show ((',' : Char) == ',') = true from rfl,
        jsonSkipWs_cons_ws ' ' (dumpFields (g :: gs') ++ '}' :: rest) rfl,
        jsonSkipWs_dumpFields g gs' ('}' :: rest),
        ih fuel' rest (by simp) hgs (by simpa using Nat.le_of_succ_le_succ hfuel)]

/-- `jsonLoads` inverts `jsonDumps` on well-formed payloads. -/
theorem jsonLoads_jsonDumps (p : JPayload) (hwf : p.wf = true) :
    jsonLoads (jsonDumps p) = some p := by
  obtain ⟨fs⟩ := p
  cases fs with
  | nil => rfl
  | cons f gs =>
    rw [show jsonDumps ⟨f :: gs⟩ = '{' :: (dumpFields (f :: gs) ++ '}' :: []) from rfl]
    simp only [jsonLoads]
    simp only [jsonSkipWs_cons_not_ws '{' (dumpFields (f :: gs) ++ '}' :: []) rfl,
      show (('{' : Char) == '{') = true from rfl, if_true,
      jsonSkipWs_dumpFields f gs ('}' :: [])]
    obtain ⟨t, ht⟩ : ∃ t, dumpFields (f :: gs) = '"' :: t := by
      obtain ⟨k, v⟩ := f
      rw [dumpFields_cons_eq, List.cons_append]
      exact ⟨_, rfl⟩
    rw [ht, List.cons_append]
    simp only [show (('"' : Char) == '}') = false from rfl, Bool.false_eq_true, if_false]
    rw [← List.cons_append, ← ht]
    rw [parseFieldsFuel_append (f :: gs) ((dumpFields (f :: gs) ++ '}' :: []).length + 1) []
      (by simp) hwf
      (by
        have := dumpFields_length (f :: gs)
        simp only [List.length_cons, List.length_append] at this ⊢
        omega)]
    rfl

/-! ### The regex extraction recovers exactly the rendered object -/

/-- No character of a well-formed rendered scalar is a closing brace. -/
theorem dumpScalar_no_rbrace (v : JScalar) (hwf : v.wf = true) :
    ∀ c ∈ dumpScalar v, (c == '}') = false := by
  intro c hc
  cases v with
  | snull =>
    simp only [dumpScalar, List.mem_cons, List.not_mem_nil, or_false] at hc
    rcases hc with rfl | rfl | rfl | rfl <;> rfl
  | sstr s =>
    rw [show dumpScalar (JScalar.sstr s) = ('"' :: s.data) ++ ['"'] from rfl] at hc
    rcases List.mem_append.mp hc with hc | hc
    · rcases List.mem_cons.mp hc with rfl | hc
      · rfl
      · exact strOk_no_rbrace s hwf c hc
    · rcases List.mem_cons.mp hc with rfl | hc
      · rfl
      · exact absurd hc (List.not_mem_nil c)
  | snum neg ip frac =>
    simp only [dumpScalar, List.mem_append] at hc
    rcases hc with (hc | hc) | hc
    · cases neg with
      | true =>
        simp only [if_true, List.mem_cons, List.not_mem_nil, or_false] at hc
        subst hc
        rfl
      | false => simp at hc
    · rw [List.mem_map] at hc
      obtain ⟨d, -, rfl⟩ := hc
      exact (digitChar_facts d).2.2.2.2.2.1
    · cases hfr : frac.isEmpty with
      | true => rw [hfr] at hc; simp at hc
      | false =>
        rw [hfr] at hc
        simp only [Bool.false_eq_true, if_false, List.mem_cons, List.mem_map] at hc
        rcases hc with rfl | ⟨d, -, rfl⟩
        · rfl
        · exact (digitChar_facts d).2.2.2.2.2.1

/-- No character of a well-formed rendered element list is a closing
brace. -/
theorem dumpElems_no_rbrace (es : List JScalar) (hwf : es.all JScalar.wf = true) :
    ∀ c ∈ dumpElems es, (c == '}') = false := by
  induction es with
  | nil => simp [dumpElems]
  | cons v vs ih =>
    have hv : v.wf = true := by
      rw [List.all_eq_true] at hwf
      exact hwf v (by simp)
    have hvs : vs.all JScalar.wf = true := by
      rw [List.all_eq_true] at hwf ⊢
      exact fun x hx => hwf x (by simp [hx])
    intro c hc
    cases vs with
    | nil => exact dumpScalar_no_rbrace v hv c hc
    | cons w ws =>
      rw [show dumpElems (v :: w :: ws) = dumpScalar v ++ ',' :: ' ' :: dumpElems (w :: ws)
        from rfl] at hc
      simp only [List.mem_append, List.mem_cons] at hc
      rcases hc with hc | rfl | rfl | hc
      · exact dumpScalar_no_rbrace v hv c hc
      · rfl
      · rfl
      · exact ih hvs c hc

/-- No character of a well-formed rendered value is a closing brace. -/
theorem dumpVal_no_rbrace (v : JVal) (hwf : v.wf = true) :
    ∀ c ∈ dumpVal v, (c == '}') = false := by
  intro c hc
  cases v with
  | prim s => exact dumpScalar_no_rbrace s hwf c hc
  | arr es =>
    rw [show dumpVal (JVal.arr es) = '[' :: (dumpElems es ++ [']']) from rfl] at hc
    simp only [List.mem_cons, List.mem_append, List.not_mem_nil, or_false] at hc
    rcases hc with rfl | hc | rfl
    · rfl
    · exact dumpElems_no_rbrace es hwf c hc
    · rfl

/-- No character of a well-formed rendered member list is a closing
brace. -/
theorem dumpFields_no_rbrace (fs : List (String × JVal))
    (hwf : (fs.all fun kv => strOk kv.1 && kv.2.wf) = true) :
    ∀ c ∈ dumpFields fs, (c == '}') = false := by
  induction fs with
  | nil => simp [dumpFields]
  | cons f gs ih =>
    obtain ⟨k, v⟩ := f
    have hf : (strOk k && v.wf) = true := by
      rw [List.all_eq_true] at hwf
      exact hwf (k, v) (by simp)
    rw [Bool.and_eq_true] at hf
    have hgs : (gs.all fun kv => strOk kv.1 && kv.2.wf) = true := by
      rw [List.all_eq_true] at hwf ⊢
      exact fun x hx => hwf x (by simp [hx])
    intro c hc
    have hfield : c ∈ dumpField k v → (c == '}') = false := by
      intro hcf
      rw [show dumpField k v = ('"' :: k.data) ++ '"' :: ':' :: ' ' :: dumpVal v from rfl]
        at hcf
      rcases List.mem_append.mp hcf with hcf | hcf
      · rcases List.mem_cons.mp hcf with rfl | hcf
        · rfl
        · exact strOk_no_rbrace k hf.1 c hcf
      · rcases List.mem_cons.mp hcf with rfl | hcf
        · rfl
        rcases List.mem_cons.mp hcf with rfl | hcf
        · rfl
        rcases List.mem_cons.mp hcf with rfl | hcf
        · rfl
        · exact dumpVal_no_rbrace v hf.2 c hcf
    cases gs with
    | nil => exact hfield hc
    | cons g gs' =>
      rw [show dumpFields ((k, v) :: g :: gs') =
        dumpField k v ++ ',' :: ' ' :: dumpFields (g :: gs') from rfl] at hc
      simp only [List.mem_append, List.mem_cons] at hc
      rcases hc with hc | rfl | rfl | hc
      · exact hfield hc
      · rfl
      · rfl
      · exact ih hgs c hc

/-- `strOccursL` (Python's `in`) decides infix occurrence. -/
theorem strOccursL_iff_infix (pat s : List Char) :
    strOccursL pat s = true ↔ pat <:+: s := by
  induction s with
  | nil => simp [strOccursL, List.isEmpty_iff]
  | cons c cs ih =>
    simp only [strOccursL, Bool.or_eq_true, List.isPrefixOf_iff_prefix, ih,
      List.infix_cons_iff]

/-- `takeBraced` collects exactly a brace-free run and the first closing
brace. -/
theorem takeBraced_append (inner rest : List Char)
    (h : ∀ c ∈ inner, (c == '}') = false) :
    takeBraced (inner ++ '}' :: rest) = some (inner ++ ['}']) := by
  induction inner with
  | nil =>
    simp only [List.nil_append, takeBraced]
    rfl
  | cons c t ih =>
    simp only [List.cons_append, takeBraced, h c (by simp), Bool.false_eq_true, if_false,
      List.append_eq]
    rw [ih (fun x hx => h x (by simp [hx]))]
    rfl

/-- At the canonical envelope position the regex attempt succeeds and its
group is exactly the rendered object. -/
theorem matchDataAt_canonical (p : JPayload) (hwf : p.wf = true) :
    matchDataAt ('D' :: 'A' :: 'T' :: 'A' :: ':' :: ' ' :: jsonDumps p) =
      some (jsonDumps p) := by
  have hpre : dataPat.isPrefixOf
      ('D' :: 'A' :: 'T' :: 'A' :: ':' :: ' ' :: jsonDumps p) = true := rfl
  unfold matchDataAt
  rw [hpre]
  simp only [if_true, List.drop_succ_cons, List.drop_zero]
  rw [show List.dropWhile isWsChar (' ' :: jsonDumps p) =
    List.dropWhile isWsChar (jsonDumps p) from by
      simp [List.dropWhile_cons, show isWsChar ' ' = true from rfl]]
  rw [show jsonDumps p = '{' :: (dumpFields p.fields ++ '}' :: []) from rfl]
  rw [show List.dropWhile isWsChar ('{' :: (dumpFields p.fields ++ '}' :: [])) =
    '{' :: (dumpFields p.fields ++ '}' :: []) from by
      simp [List.dropWhile_cons, show isWsChar '{' = false from rfl]]
  show Option.map (fun g => '{' :: g) (takeBraced (dumpFields p.fields ++ '}' :: [])) = _
  rw [takeBraced_append (dumpFields p.fields) [] (dumpFields_no_rbrace p.fields hwf)]
  rfl

/-- `re.search` scans positions left to right: if the attempt fails at
every position inside a leading chunk, the search continues on the rest. -/
theorem reSearchData_append (s t : List Char)
    (h : ∀ s', s' ≠ [] → s' <:+ s → matchDataAt (s' ++ t) = none) :
    reSearchData (s ++ t) = reSearchData t := by
  induction s with
  | nil => rfl
  | cons c cs ih =>
    simp only [List.cons_append, reSearchData, List.append_eq]
    rw [show matchDataAt (c :: (cs ++ t)) = none from by
      rw [← List.cons_append]
      exact h (c :: cs) (by simp) (List.suffix_rfl)]
    exact ih (fun s' hne hsuf => h s' hne (hsuf.trans (List.suffix_cons c cs)))

/-- No regex attempt can start inside the summary or straddle into the
separator: the pattern does not occur in the summary, and its characters
never include a space, while the separator starts with one. -/
theorem matchDataAt_none_of_summary (summaryL t' : List Char) (s' : List Char)
    (hs : strOccursL dataPat summaryL = false) (hne : s' ≠ []) (hsuf : s' <:+ summaryL) :
    matchDataAt (s' ++ ' ' :: t') = none := by
  unfold matchDataAt
  have hpre : dataPat.isPrefixOf (s' ++ ' ' :: t') = false := by
    by_contra hcon
    rw [Bool.not_eq_false, List.isPrefixOf_iff_prefix] at hcon
    obtain ⟨r, hr⟩ := hcon
    by_cases hlen : 5 ≤ s'.length
    · have htake := congrArg (List.take 5) hr
      rw [List.take_append_eq_append_take, List.take_append_eq_append_take] at htake
      simp only [show List.take 5 dataPat = dataPat from rfl,
        show dataPat.length = 5 from rfl, Nat.sub_self, List.take_zero, List.append_nil,
        show (5 : Nat) - s'.length = 0 from by omega] at htake
      have hp : dataPat <+: s' := htake ▸ List.take_prefix 5 s'
      have hinf : dataPat <:+: summaryL := hp.isInfix.trans hsuf.isInfix
      rw [← strOccursL_iff_infix] at hinf
      rw [hinf] at hs
      cases hs
    · push_neg at hlen
      have h1 : 1 ≤ s'.length := by
        cases s' with
        | nil => exact absurd rfl hne
        | cons a b => simp
      have hdrop := congrArg (List.drop s'.length) hr
      rw [List.drop_append_eq_append_drop, List.drop_append_eq_append_drop] at hdrop
      simp only [Nat.sub_self, List.drop_zero, List.drop_length, List.nil_append,
        show s'.length - dataPat.length = 0 from by
          rw [show dataPat.length = 5 from rfl]; omega] at hdrop
      set k := s'.length with hk
      interval_cases k <;> simp [dataPat] at hdrop
  rw [hpre]
  rfl

/-- The regex search over the whole envelope returns exactly the rendered
object: nothing matches inside a `DATA:`-free summary, the separator's
first three characters fail the attempt, and the attempt at `DATA:`
succeeds with the full object as group 1. -/
theorem reSearchData_envelope (summaryL : List Char) (p : JPayload) (hwf : p.wf = true)
    (hs : strOccursL dataPat summaryL = false) :
    reSearchData (summaryL ++ ' ' :: '|' :: ' ' :: 'D' :: 'A' :: 'T' :: 'A' :: ':' :: ' ' ::
      jsonDumps p) = some (jsonDumps p) := by
  rw [reSearchData_append summaryL _ (fun s' hne hsuf =>
    matchDataAt_none_of_summary summaryL _ s' hs hne hsuf)]
  rw [show reSearchData (' ' :: '|' :: ' ' :: 'D' :: 'A' :: 'T' :: 'A' :: ':' :: ' ' ::
      jsonDumps p) =
    reSearchData ('D' :: 'A' :: 'T' :: 'A' :: ':' :: ' ' :: jsonDumps p) from rfl]
  simp only [reSearchData]
  rw [matchDataAt_canonical p hwf]

/-- The downstream parser of `_analyst_node` recovers exactly the payload
from the canonical envelope. -/
theorem extractDataPayload_envelope (summary : String) (p : JPayload)
    (hwf : p.wf = true) (hs : pyIn "DATA:" summary = false) :
    extractDataPayload (envelope summary p) = some p := by
  unfold extractDataPayload
  have hdata : (envelope summary p).data = summary.data ++
      ' ' :: '|' :: ' ' :: 'D' :: 'A' :: 'T' :: 'A' :: ':' :: ' ' :: jsonDumps p := by
    rw [envelope]
    rw [String.data_append, String.data_append, List.append_assoc]
    rfl
  rw [hdata, reSearchData_envelope summary.data p hwf hs]
  exact jsonLoads_jsonDumps p hwf

/-! ### Claim C8 — the envelope round-trip -/

/-- C8.  For every payload the analysis tool can serialize (a well-formed
flat object) wrapped in the canonical envelope
`f"{summary} | DATA: {json.dumps(...)}"` with a `DATA:`-free summary, the
analyst node's downstream parser — the regex extraction of the `DATA:`
suffix followed by `json.loads` — recovers exactly the same structured
payload, and the analyst delta's `raw_data` carries it. -/
theorem envelope_round_trip (s : AgentState) (role : Role) (summary : String)
    (p : JPayload) (hwf : p.wf = true) (hs : pyIn "DATA:" summary = false) :
    extractDataPayload (envelope summary p) = some p ∧
    (analystNode (Except.ok [{ role := role, content := envelope summary p }]) s).raw_data =
      some (some p) := by
  have h1 := extractDataPayload_envelope summary p hwf hs
  refine ⟨h1, ?_⟩
  simp [analystNode, extractRawData, h1]

/-- Witness for C8 at the tool's default payload
`{"labels": ["Category 1", "Category 2"], "values": [100, 200],
"units": [null, null], "type": "general"}` and its summary line. -/
theorem envelope_round_trip_witness :
    extractDataPayload (envelope "ANALYSIS: Summary statistics computed successfully."
      ⟨[("labels", JVal.arr [JScalar.sstr "Category 1", JScalar.sstr "Category 2"]),
        ("values", JVal.arr [JScalar.snum false [1, 0, 0] [], JScalar.snum false [2, 0, 0] []]),
        ("units", JVal.arr [JScalar.snull, JScalar.snull]),
        ("type", JVal.prim (JScalar.sstr "general"))]⟩) =
      some ⟨[("labels", JVal.arr [JScalar.sstr "Category 1", JScalar.sstr "Category 2"]),
        ("values", JVal.arr [JScalar.snum false [1, 0, 0] [], JScalar.snum false [2, 0, 0] []]),
        ("units", JVal.arr [JScalar.snull, JScalar.snull]),
        ("type", JVal.prim (JScalar.sstr "general"))]⟩ :=
  (envelope_round_trip (create_initial_state "analyze data") Role.ai
    "ANALYSIS: Summary statistics computed successfully."
    ⟨[("labels", JVal.arr [JScalar.sstr "Category 1", JScalar.sstr "Category 2"]),
      ("values", JVal.arr [JScalar.snum false [1, 0, 0] [], JScalar.snum false [2, 0, 0] []]),
      ("units", JVal.arr [JScalar.snull, JScalar.snull]),
      ("type", JVal.prim (JScalar.sstr "general"))]⟩
    (by decide) (by decide)).1
